import Mathlib

/-!
Shallow embedding of the SH-Fari fuel-station shift-reconciliation core.

The definitions below are translated from the TypeScript sources:
`src/lib/api.ts` (persistence-facing operations), `src/components/ManualDataEntry.tsx`
(manual entry form, live variance panel, denomination totalizer, reconciliation flag)
and `src/components/CashAnalysis.tsx` (denomination totalizer and reconciliation flag).

Modelling conventions:
* JavaScript numbers carrying money or meter readings become `ℚ`; denomination
  note values and piece counts become `Nat`.
* Database tables become lists inside a `Db` structure; supabase queries become
  list filters; `.single()` becomes "exactly one row, else none".
* `crypto.randomUUID()` becomes explicitly supplied fresh identifiers.
* Dates are canonical `YYYY-MM-DD` strings compared lexicographically, which is
  how the code compares them (`localeCompare`, `gte` on ISO strings).
-/

namespace SHFari

/-- Expense status as stored in the `expenses` table. -/
inductive ExpenseStatus
  | PENDING
  | APPROVED
  | REJECTED
deriving DecidableEq, Repr

/-- Shift status as stored in the `shifts` table. -/
inductive ShiftStatus
  | OPEN
  | CLOSED
deriving DecidableEq, Repr

/-- A row of the `branches` table. -/
structure Branch where
  id : String
  name : String
deriving DecidableEq, Repr

/-- A row of the `attendants` table. -/
structure Attendant where
  id : String
  name : String
  branch_id : String
deriving DecidableEq, Repr

/-- A row of the `shifts` table. -/
structure Shift where
  id : String
  branch_id : String
  shift_date : String
  shift_time : String
  status : ShiftStatus
deriving DecidableEq, Repr

/-- A row of the `shift_data` table.  `expenses_total` is part of the declared
schema; the inspected write paths never set it, so it is carried unchanged. -/
structure ShiftDataRecord where
  id : String
  shift_id : String
  attendant_id : String
  pump_product : String
  expected_amount : ℚ
  cash_remitted : ℚ
  pos_remitted : ℚ
  expenses_total : ℚ
  variance : ℚ
deriving DecidableEq, Repr

/-- A row of the `expenses` table. -/
structure Expense where
  id : String
  shift_data_id : String
  description : String
  amount : ℚ
  status : ExpenseStatus
deriving DecidableEq, Repr

/-- The persisted state the api functions read and write. -/
structure Db where
  branches : List Branch
  attendants : List Attendant
  shifts : List Shift
  shift_data : List ShiftDataRecord
  expenses : List Expense
deriving DecidableEq, Repr

/-! ### Variance calculator -/

/-- Output of the variance computation: liters sold, expected revenue, variance. -/
structure VarianceResult where
  liters_sold : ℚ
  expected_amount : ℚ
  variance : ℚ
deriving DecidableEq, Repr

/-- Derived fields computed by `submitManualShiftData` (`api.ts` lines 355-357):
`liters_sold = closing_meter - opening_meter` (no clamp),
`expected_amount = liters_sold * price_per_liter`,
`raw_variance = (cash_remitted + pos_remitted) - expected_amount`. -/
def submitDerived (opening_meter closing_meter price_per_liter cash_remitted pos_remitted : ℚ) :
    VarianceResult :=
  let liters_sold := closing_meter - opening_meter
  let expected_amount := liters_sold * price_per_liter
  let raw_variance := (cash_remitted + pos_remitted) - expected_amount
  { liters_sold := liters_sold, expected_amount := expected_amount, variance := raw_variance }

/-- Live meter panel of `ManualDataEntry.tsx` (lines 77-80):
`litersSold = Math.max(0, closingMeter - openingMeter)`,
`expectedRevenue = litersSold * price`,
`trueVariance = (cash + pos) - expectedRevenue`. -/
def meterPanel (openingMeter closingMeter price cash pos : ℚ) : VarianceResult :=
  let litersSold := max 0 (closingMeter - openingMeter)
  let expectedRevenue := litersSold * price
  let totalRemitted := cash + pos
  { liters_sold := litersSold, expected_amount := expectedRevenue,
    variance := totalRemitted - expectedRevenue }

/-- C1: For every input with `opening_meter ≥ 0`, `closing_meter ≥ opening_meter`,
`price_per_liter > 0`, `cash_remitted ≥ 0` and `pos_remitted ≥ 0`, the variance
calculator returns `liters_sold = max 0 (closing - opening)`,
`expected_amount = liters_sold * price` and
`variance = (cash + pos) - expected_amount`; the persisted computation
(`submitDerived`, no clamp) and the live panel (`meterPanel`, clamped) agree. -/
theorem C1_variance_calculator (o c p cash pos : ℚ)
    (_ho : 0 ≤ o) (hc : o ≤ c) (_hp : 0 < p) (_hcash : 0 ≤ cash) (_hpos : 0 ≤ pos) :
    (submitDerived o c p cash pos).liters_sold = max 0 (c - o) ∧
    (submitDerived o c p cash pos).expected_amount = max 0 (c - o) * p ∧
    (submitDerived o c p cash pos).variance = (cash + pos) - max 0 (c - o) * p ∧
    submitDerived o c p cash pos = meterPanel o c p cash pos := by
  have hmax : max 0 (c - o) = c - o := max_eq_right (sub_nonneg.mpr hc)
  refine ⟨?_, ?_, ?_, ?_⟩ <;>
    simp [submitDerived, meterPanel, hmax]

/-- Witness for C1 at scenario A: opening 1000, closing 1500, price 650,
cash 310000, pos 10000 gives liters 500, expected 325000, variance -5000. -/
theorem C1_variance_calculator_witness :
    (submitDerived 1000 1500 650 310000 10000).liters_sold = max 0 ((1500 : ℚ) - 1000) ∧
    (submitDerived 1000 1500 650 310000 10000).liters_sold = 500 ∧
    (submitDerived 1000 1500 650 310000 10000).expected_amount = 325000 ∧
    (submitDerived 1000 1500 650 310000 10000).variance = -5000 := by
  have h := C1_variance_calculator 1000 1500 650 310000 10000
    (by norm_num) (by norm_num) (by norm_num) (by norm_num) (by norm_num)
  exact ⟨h.1, by norm_num [submitDerived], by norm_num [submitDerived],
    by norm_num [submitDerived]⟩

/-! ### Cash denomination totalizer -/

/-- The note denominations known to the UI (`DENOMINATIONS` in
`ManualDataEntry.tsx` line 30 and `CashAnalysis.tsx` line 12). -/
def DENOMINATIONS : List Nat := [1000, 500, 200, 100, 50, 20, 10, 5]

/-- JavaScript object indexing `counts[d]` over a denomination-count mapping,
modelled as first-match lookup in an association list. -/
def jsGet (counts : List (Nat × Nat)) (d : Nat) : Option Nat :=
  match counts with
  | [] => none
  | (k, v) :: rest => if k = d then some v else jsGet rest d

/-- Per-denomination subtotals (`ManualDataEntry.tsx` lines 83-88,
`CashAnalysis.tsx` lines 52-57): for each known denomination `curr`,
`subtotal[curr] = curr * (counts[curr] || 0)`. -/
def subtotals (counts : List (Nat × Nat)) : List (Nat × Nat) :=
  DENOMINATIONS.map (fun d => (d, d * ((jsGet counts d).getD 0)))

/-- `totalCash` (`ManualDataEntry.tsx` line 90, `CashAnalysis.tsx` lines 59-61):
`Object.values(subtotals).reduce((sum, v) => sum + v, 0)`. -/
def totalCash (counts : List (Nat × Nat)) : Nat :=
  ((subtotals counts).map (fun p => p.2)).foldl (fun sum v => sum + v) 0

theorem foldl_add_map {α M : Type _} [AddCommMonoid M] (f : α → M) (l : List α) (a : M) :
    l.foldl (fun s x => s + f x) a = a + (l.map f).sum := by
  induction l generalizing a with
  | nil => simp
  | cons x xs ih => simp [ih, add_assoc]

theorem foldl_add_sum {M : Type _} [AddCommMonoid M] (l : List M) (a : M) :
    l.foldl (fun sum v => sum + v) a = a + l.sum := by
  induction l generalizing a with
  | nil => simp
  | cons x xs ih => simp [ih, add_assoc]

theorem jsGet_eq_none_iff (l : List (Nat × Nat)) (d : Nat) :
    jsGet l d = none ↔ d ∉ l.map Prod.fst := by
  induction l with
  | nil => simp [jsGet]
  | cons p rest ih =>
    obtain ⟨k, v⟩ := p
    by_cases hk : k = d
    · subst hk
      simp [jsGet]
    · simp only [jsGet, hk, if_false, ih, List.map_cons, List.mem_cons]
      have hdk : d ≠ k := fun h => hk h.symm
      tauto

theorem mem_of_jsGet_eq_some (l : List (Nat × Nat)) (d v : Nat)
    (h : jsGet l d = some v) : (d, v) ∈ l := by
  induction l with
  | nil => simp [jsGet] at h
  | cons p rest ih =>
    obtain ⟨k, w⟩ := p
    by_cases hk : k = d
    · simp [jsGet, hk] at h
      simp [hk, h]
    · simp [jsGet, hk] at h
      exact List.mem_cons_of_mem _ (ih h)

theorem jsGet_eq_some_of_mem (l : List (Nat × Nat)) (d v : Nat)
    (hnodup : (l.map Prod.fst).Nodup) (h : (d, v) ∈ l) : jsGet l d = some v := by
  induction l with
  | nil => simp at h
  | cons p rest ih =>
    obtain ⟨k, w⟩ := p
    simp only [List.map_cons, List.nodup_cons] at hnodup
    rcases List.mem_cons.mp h with heq | hmem
    · cases heq
      simp [jsGet]
    · have hkd : k ≠ d := by
        intro hkd
        exact hnodup.1 (hkd ▸ (List.mem_map.mpr ⟨(d, v), hmem, rfl⟩))
      simp [jsGet, hkd, ih hnodup.2 hmem]

theorem jsGet_perm (l₁ l₂ : List (Nat × Nat)) (hperm : l₁.Perm l₂)
    (hnodup : (l₁.map Prod.fst).Nodup) (d : Nat) : jsGet l₁ d = jsGet l₂ d := by
  have hnodup₂ : (l₂.map Prod.fst).Nodup := ((hperm.map Prod.fst).nodup_iff).mp hnodup
  cases h₁ : jsGet l₁ d with
  | none =>
    have hd : d ∉ l₁.map Prod.fst := (jsGet_eq_none_iff l₁ d).mp h₁
    have hd₂ : d ∉ l₂.map Prod.fst := fun hm => hd ((hperm.map Prod.fst).mem_iff.mpr hm)
    exact ((jsGet_eq_none_iff l₂ d).mpr hd₂).symm
  | some v =>
    have hm : (d, v) ∈ l₂ := hperm.mem_iff.mp (mem_of_jsGet_eq_some l₁ d v h₁)
    exact (jsGet_eq_some_of_mem l₂ d v hnodup₂ hm).symm

theorem jsGet_filter (l : List (Nat × Nat)) (P : Nat → Bool) (d : Nat) (hd : P d = true) :
    jsGet (l.filter (fun p => P p.1)) d = jsGet l d := by
  induction l with
  | nil => simp
  | cons p rest ih =>
    obtain ⟨k, v⟩ := p
    by_cases hk : k = d
    · subst hk
      simp [jsGet, List.filter_cons, hd]
    · by_cases hP : P k = true <;> simp [jsGet, List.filter_cons, hP, hk, ih]

theorem sum_map_update (D : List Nat) (k : Nat) (f : Nat → Nat) (a : Nat)
    (hD : D.Nodup) (hk : k ∈ D) (hf : f k = 0) :
    (D.map (fun d => if d = k then a else f d)).sum = a + (D.map f).sum := by
  induction D with
  | nil => simp at hk
  | cons hd tl ih =>
    rcases List.nodup_cons.mp hD with ⟨hnotmem, htl⟩
    rcases List.mem_cons.mp hk with heq | hmem
    · have hmap : tl.map (fun d => if d = k then a else f d) = tl.map f := by
        apply List.map_congr_left
        intro x hx
        have hxk : x ≠ k := fun hcontra => hnotmem (by rw [← heq, ← hcontra]; exact hx)
        simp [hxk]
      subst heq
      simp [hmap, hf]
    · have hne : hd ≠ k := fun h => hnotmem (h ▸ hmem)
      simp only [List.map_cons, List.sum_cons, hne, if_false, ih htl hmem]
      omega

theorem totalCash_eq_sum (counts : List (Nat × Nat)) :
    totalCash counts =
      (DENOMINATIONS.map (fun d => d * ((jsGet counts d).getD 0))).sum := by
  simp only [totalCash, subtotals, List.map_map, foldl_add_sum, Nat.zero_add]
  rfl

theorem totalCash_cons (k c : Nat) (rest : List (Nat × Nat))
    (hk : k ∈ DENOMINATIONS) (hnot : k ∉ rest.map Prod.fst) :
    totalCash ((k, c) :: rest) = k * c + totalCash rest := by
  have hrest : jsGet rest k = none := (jsGet_eq_none_iff rest k).mpr hnot
  have hDnodup : DENOMINATIONS.Nodup := by decide
  rw [totalCash_eq_sum, totalCash_eq_sum]
  have hmap : DENOMINATIONS.map (fun d => d * ((jsGet ((k, c) :: rest) d).getD 0)) =
      DENOMINATIONS.map (fun d => if d = k then k * c
        else d * ((jsGet rest d).getD 0)) := by
    apply List.map_congr_left
    intro d _
    by_cases hd : d = k
    · subst hd
      simp [jsGet]
    · have hkd : k ≠ d := fun h => hd h.symm
      simp [jsGet, hkd, hd]
  rw [hmap, sum_map_update DENOMINATIONS k (fun d => d * ((jsGet rest d).getD 0))
    (k * c) hDnodup hk (by simp [hrest])]

theorem totalCash_known_keys (counts : List (Nat × Nat))
    (hnodup : (counts.map Prod.fst).Nodup)
    (hkeys : ∀ p ∈ counts, p.1 ∈ DENOMINATIONS) :
    totalCash counts = (counts.map (fun p => p.1 * p.2)).sum := by
  induction counts with
  | nil => decide
  | cons p rest ih =>
    obtain ⟨k, c⟩ := p
    rw [List.map_cons] at hnodup
    rcases List.nodup_cons.mp hnodup with ⟨hnotmem, hrest⟩
    have hk : k ∈ DENOMINATIONS := hkeys (k, c) (List.mem_cons_self _ _)
    rw [totalCash_cons k c rest hk hnotmem,
      ih hrest (fun q hq => hkeys q (List.mem_cons_of_mem _ hq))]
    simp

/-- C6: for every denomination-count mapping with distinct keys: each known
denomination's subtotal is `value * count`; when all keys are known
denominations the total is the sum of `value * count` over every entry; the
total is invariant under reordering of the mapping; and unknown denomination
keys are ignored. -/
theorem C6_totalize_cash (counts : List (Nat × Nat))
    (hnodup : (counts.map Prod.fst).Nodup) :
    (∀ d cnt, (d, cnt) ∈ counts → d ∈ DENOMINATIONS → (d, d * cnt) ∈ subtotals counts) ∧
    ((∀ p ∈ counts, p.1 ∈ DENOMINATIONS) →
      totalCash counts = (counts.map (fun p => p.1 * p.2)).sum) ∧
    (∀ counts₂, counts.Perm counts₂ → totalCash counts = totalCash counts₂) ∧
    totalCash counts = totalCash (counts.filter (fun p => DENOMINATIONS.contains p.1)) := by
  refine ⟨?_, ?_, ?_, ?_⟩
  · intro d cnt hmem hd
    have hget : jsGet counts d = some cnt := jsGet_eq_some_of_mem counts d cnt hnodup hmem
    exact List.mem_map.mpr ⟨d, hd, by simp [hget]⟩
  · exact totalCash_known_keys counts hnodup
  · intro counts₂ hperm
    have hget : ∀ d, jsGet counts d = jsGet counts₂ d :=
      jsGet_perm counts counts₂ hperm hnodup
    rw [totalCash_eq_sum, totalCash_eq_sum]
    congr 1
    apply List.map_congr_left
    intro d _
    rw [hget d]
  · rw [totalCash_eq_sum, totalCash_eq_sum]
    congr 1
    apply List.map_congr_left
    intro d hd
    have hcont : DENOMINATIONS.contains d = true := List.elem_eq_true_of_mem hd
    rw [jsGet_filter counts _ d hcont]

/-- Witness for C6: the mapping `[(500, 3), (1000, 2), (50, 4)]` has distinct
keys inside the known denominations; its total is 3700 and is stable under
reordering and under dropping an unknown key 7. -/
theorem C6_totalize_cash_witness :
    ((([(500, 3), (1000, 2), (50, 4)] : List (Nat × Nat)).map Prod.fst).Nodup ∧
      totalCash [(500, 3), (1000, 2), (50, 4)] =
        (([(500, 3), (1000, 2), (50, 4)] : List (Nat × Nat)).map
          (fun p => p.1 * p.2)).sum) ∧
    totalCash [(500, 3), (1000, 2), (50, 4)] = 3700 ∧
    totalCash [(1000, 2), (50, 4), (500, 3)] = 3700 ∧
    totalCash [(500, 3), (7, 9), (1000, 2), (50, 4)] = 3700 := by
  have h := C6_totalize_cash [(500, 3), (1000, 2), (50, 4)] (by decide)
  exact ⟨⟨by decide, h.2.1 (by decide)⟩, by decide, by decide, by decide⟩

/-! ### Manual shift-data entry: zod validation and submission -/

/-- Product selector of the manual entry form (`z.enum(["PMS", "AGO"])`). -/
inductive ProductType
  | PMS
  | AGO
deriving DecidableEq, Repr

/-- String rendering used when the form value is interpolated. -/
def ProductType.label : ProductType → String
  | .PMS => "PMS"
  | .AGO => "AGO"

/-- Shift-time selector of the manual entry form (`z.enum(["Morning", "Evening"])`). -/
inductive ShiftTime
  | Morning
  | Evening
deriving DecidableEq, Repr

/-- String rendering used when the form value is persisted. -/
def ShiftTime.label : ShiftTime → String
  | .Morning => "Morning"
  | .Evening => "Evening"

/-- The manual entry form values (`FormValues` in `ManualDataEntry.tsx`). -/
structure FormValues where
  branch_id : String
  attendant_name : String
  pump_number : String
  product_type : ProductType
  shift_date : String
  shift_time : ShiftTime
  price_per_liter : ℚ
  opening_meter : ℚ
  closing_meter : ℚ
  cash_remitted : ℚ
  pos_remitted : ℚ
deriving DecidableEq, Repr

/-- One expense line of the manual entry form. -/
structure ExpenseInput where
  description : String
  amount : ℚ
deriving DecidableEq, Repr

/-- Field-level issues of the zod `formSchema` (`ManualDataEntry.tsx` lines
11-22): `min(1)` on the string fields, `min(1)` on the price, `min(0)` on the
meters and remittances. -/
def formBaseIssues (f : FormValues) : List String :=
  (if 1 ≤ f.branch_id.length then [] else ["Branch required"]) ++
  (if 1 ≤ f.attendant_name.length then [] else ["Name required"]) ++
  (if 1 ≤ f.pump_number.length then [] else ["Pump required"]) ++
  (if 1 ≤ f.shift_date.length then [] else ["Date required"]) ++
  (if 1 ≤ f.price_per_liter then [] else ["Price required"]) ++
  (if 0 ≤ f.opening_meter then [] else ["Opening meter required"]) ++
  (if 0 ≤ f.closing_meter then [] else ["Closing meter required"]) ++
  (if 0 ≤ f.cash_remitted then [] else ["Must be ≥ 0"]) ++
  (if 0 ≤ f.pos_remitted then [] else ["Must be ≥ 0"])

/-- Full zod validation of `formSchema` (`ManualDataEntry.tsx` lines 11-26):
the `.refine` cross-field check `closing_meter >= opening_meter` runs once the
base object schema succeeds. -/
def formIssues (f : FormValues) : List String :=
  let base := formBaseIssues f
  if base.isEmpty then
    if f.opening_meter ≤ f.closing_meter then []
    else ["Closing meter must be ≥ Opening meter"]
  else base

/-- JavaScript `toLowerCase()`, modelled character-wise so that concrete
strings evaluate inside the kernel. -/
def jsToLower (s : String) : String := String.mk (s.data.map Char.toLower)

/-- Whitespace as far as `trim()` is concerned. -/
def wsChar (c : Char) : Bool := c == ' ' || c == '\t' || c == '\n' || c == '\r'

/-- JavaScript `trim()`, modelled character-wise. -/
def jsTrim (s : String) : String :=
  String.mk (((s.data.dropWhile wsChar).reverse.dropWhile wsChar).reverse)

/-- Fresh identifiers standing in for `crypto.randomUUID()` calls. -/
structure FreshIds where
  shiftId : String
  attendantId : String
  shiftDataId : String
  expenseIds : List String
deriving Repr

/-- Supabase `.single()`: a value only when the query matched exactly one row. -/
def singleRow {α : Type _} (l : List α) : Option α :=
  match l with
  | [x] => some x
  | _ => none

/-- Payload accepted by `submitManualShiftData` (`api.ts` line 311). -/
structure ManualPayload where
  branch_id : String
  attendant_name : String
  pump_number : String
  product_type : String
  price_per_liter : ℚ
  opening_meter : ℚ
  closing_meter : ℚ
  cash_remitted : ℚ
  pos_remitted : ℚ
  expenses : List ExpenseInput
  shift_date : String
  shift_time : String
deriving Repr

/-- `submitManualShiftData` (`api.ts` lines 310-388): ensure an OPEN shift for
the branch/date/time (creating one when the lookup does not resolve a single
row), resolve the attendant case-insensitively within the branch (creating one
when absent), insert the shift_data row with the unclamped derived figures,
then insert the PENDING expenses. -/
def submitManualShiftData (db : Db) (p : ManualPayload) (fresh : FreshIds) : Db :=
  let shiftHit := singleRow (db.shifts.filter (fun s =>
    s.branch_id == p.branch_id && s.shift_date == p.shift_date &&
    s.shift_time == p.shift_time && s.status == ShiftStatus.OPEN))
  let step₁ : Shift × Db :=
    match shiftHit with
    | some s => (s, db)
    | none =>
      let ns : Shift :=
        { id := fresh.shiftId, branch_id := p.branch_id, shift_date := p.shift_date,
          shift_time := p.shift_time, status := ShiftStatus.OPEN }
      (ns, { db with shifts := db.shifts ++ [ns] })
  let shift := step₁.1
  let db₁ := step₁.2
  let attHit := (db₁.attendants.filter (fun a => a.branch_id == p.branch_id)).find?
    (fun a => jsToLower a.name == jsToLower p.attendant_name)
  let step₂ : String × Db :=
    match attHit with
    | some a => (a.id, db₁)
    | none =>
      let na : Attendant :=
        { id := fresh.attendantId, name := p.attendant_name, branch_id := p.branch_id }
      (fresh.attendantId, { db₁ with attendants := db₁.attendants ++ [na] })
  let attendant_id := step₂.1
  let db₂ := step₂.2
  let derived := submitDerived p.opening_meter p.closing_meter p.price_per_liter
    p.cash_remitted p.pos_remitted
  let sd : ShiftDataRecord :=
    { id := fresh.shiftDataId, shift_id := shift.id, attendant_id := attendant_id,
      pump_product := p.product_type ++ " - " ++ p.pump_number,
      expected_amount := derived.expected_amount, cash_remitted := p.cash_remitted,
      pos_remitted := p.pos_remitted, expenses_total := 0, variance := derived.variance }
  let db₃ := { db₂ with shift_data := db₂.shift_data ++ [sd] }
  let newExpenses : List Expense := (p.expenses.zip fresh.expenseIds).map (fun pair =>
    { id := pair.2, shift_data_id := fresh.shiftDataId,
      description := pair.1.description, amount := pair.1.amount,
      status := ExpenseStatus.PENDING })
  { db₃ with expenses := db₃.expenses ++ newExpenses }

/-- `onSubmit` payload assembly (`ManualDataEntry.tsx` lines 131-134): form
values plus the expense lines filtered to a nonempty description and a
positive amount. -/
def payloadOfForm (f : FormValues) (expenses : List ExpenseInput) : ManualPayload :=
  { branch_id := f.branch_id, attendant_name := f.attendant_name,
    pump_number := f.pump_number, product_type := f.product_type.label,
    price_per_liter := f.price_per_liter, opening_meter := f.opening_meter,
    closing_meter := f.closing_meter, cash_remitted := f.cash_remitted,
    pos_remitted := f.pos_remitted,
    expenses := expenses.filter (fun e => !e.description.isEmpty && decide (0 < e.amount)),
    shift_date := f.shift_date, shift_time := f.shift_time.label }

/-- The manual shift-data submission path: `handleSubmit` runs the zod
resolver first, so `onSubmit` (and with it `submitManualShiftData`) only runs
on form values with no validation issues; invalid values yield the issue list
and no write. -/
def manualEntrySubmit (db : Db) (f : FormValues) (expenses : List ExpenseInput)
    (fresh : FreshIds) : Except (List String) Db :=
  let issues := formIssues f
  if issues.isEmpty then
    Except.ok (submitManualShiftData db (payloadOfForm f expenses) fresh)
  else Except.error issues

/-- C2: for every form input with `closing_meter < opening_meter`, the manual
shift-data submission path fails with the validation issues (a
`ValidationError`), the issue list is nonempty, and no database state is
produced — the record is rejected before persistence rather than silently
clamped and written to `shift_data`. -/
theorem C2_closing_lt_opening_rejected (db : Db) (f : FormValues)
    (expenses : List ExpenseInput) (fresh : FreshIds)
    (h : f.closing_meter < f.opening_meter) :
    manualEntrySubmit db f expenses fresh = Except.error (formIssues f) ∧
    formIssues f ≠ [] ∧
    ∀ db₂, manualEntrySubmit db f expenses fresh ≠ Except.ok db₂ := by
  have hne : formIssues f ≠ [] := by
    unfold formIssues
    cases hbase : (formBaseIssues f).isEmpty with
    | true =>
      have hlt : ¬ f.opening_meter ≤ f.closing_meter := not_le.mpr h
      simp [hbase, hlt]
    | false =>
      simp only [hbase, Bool.false_eq_true, if_false]
      intro hnil
      rw [hnil] at hbase
      simp at hbase
  have hempty : (formIssues f).isEmpty = false := by
    cases hcase : (formIssues f).isEmpty with
    | false => rfl
    | true => exact absurd (List.isEmpty_iff.mp hcase) hne
  refine ⟨?_, hne, ?_⟩
  · unfold manualEntrySubmit
    simp [hempty]
  · intro db₂
    unfold manualEntrySubmit
    simp [hempty]

/-- Empty database used by concrete examples. -/
def emptyDb : Db :=
  { branches := [], attendants := [], shifts := [], shift_data := [], expenses := [] }

/-- A fully populated form whose closing meter (100) is below its opening
meter (200). -/
def reversedMeterForm : FormValues :=
  { branch_id := "b1", attendant_name := "Ada", pump_number := "Pump 1",
    product_type := ProductType.PMS, shift_date := "2025-01-01",
    shift_time := ShiftTime.Morning, price_per_liter := 650,
    opening_meter := 200, closing_meter := 100, cash_remitted := 0,
    pos_remitted := 0 }

/-- Fresh identifiers used by concrete examples. -/
def exampleFresh : FreshIds :=
  { shiftId := "s1", attendantId := "a1", shiftDataId := "d1", expenseIds := [] }

/-- Witness for C2: a fully populated form with opening 200 and closing 100 is
rejected with a nonempty issue list and never reaches the ok branch. -/
theorem C2_closing_lt_opening_rejected_witness :
    reversedMeterForm.closing_meter < reversedMeterForm.opening_meter ∧
    manualEntrySubmit emptyDb reversedMeterForm [] exampleFresh =
      Except.error (formIssues reversedMeterForm) ∧
    formIssues reversedMeterForm ≠ [] := by
  have h := C2_closing_lt_opening_rejected emptyDb reversedMeterForm [] exampleFresh
    (by norm_num [reversedMeterForm])
  exact ⟨by norm_num [reversedMeterForm], h.1, h.2.1⟩

/-! ### Expense lifecycle operations -/

/-- `approveExpense` (`api.ts` lines 52-60): `update({ status: 'APPROVED' })`
on the expenses whose id matches; no other column and no other table is
touched, and there is no guard on the current status. -/
def approveExpense (db : Db) (id : String) : Db :=
  { db with expenses := db.expenses.map (fun e =>
      if e.id == id then { e with status := ExpenseStatus.APPROVED } else e) }

/-- `rejectExpense` (`api.ts` lines 62-70): `update({ status: 'REJECTED' })`
on the expenses whose id matches; unguarded like `approveExpense`. -/
def rejectExpense (db : Db) (id : String) : Db :=
  { db with expenses := db.expenses.map (fun e =>
      if e.id == id then { e with status := ExpenseStatus.REJECTED } else e) }

/-- A manager action on the expense table. -/
inductive ExpenseOp
  | approve (id : String)
  | reject (id : String)
deriving DecidableEq, Repr

/-- Run one manager action. -/
def applyOp (db : Db) (op : ExpenseOp) : Db :=
  match op with
  | .approve id => approveExpense db id
  | .reject id => rejectExpense db id

/-- Run a sequence of manager actions in order. -/
def applyOps (db : Db) (ops : List ExpenseOp) : Db :=
  ops.foldl applyOp db

/-- Does this action target the expense with the given id? -/
def opTargets (op : ExpenseOp) (eid : String) : Bool :=
  match op with
  | .approve i => eid == i
  | .reject i => eid == i

/-- The status an action writes. -/
def opResultStatus (op : ExpenseOp) : ExpenseStatus :=
  match op with
  | .approve _ => ExpenseStatus.APPROVED
  | .reject _ => ExpenseStatus.REJECTED

/-- Status of an expense after a sequence of actions: unchanged when never
targeted, otherwise whatever the last targeting action wrote. -/
def finalStatus (orig : ExpenseStatus) (eid : String) (ops : List ExpenseOp) :
    ExpenseStatus :=
  match ops.reverse.find? (fun op => opTargets op eid) with
  | none => orig
  | some op => opResultStatus op

theorem applyOp_expenses (db : Db) (op : ExpenseOp) :
    (applyOp db op).expenses = db.expenses.map (fun e =>
      if opTargets op e.id then { e with status := opResultStatus op } else e) := by
  cases op with
  | approve i => rfl
  | reject i => rfl

theorem find?_append {α : Type _} (p : α → Bool) (l₁ l₂ : List α) :
    (l₁ ++ l₂).find? p = ((l₁.find? p).orElse (fun _ => l₂.find? p)) := by
  induction l₁ with
  | nil => simp
  | cons x xs ih =>
    by_cases hx : p x = true <;> simp [List.find?, hx, ih]

theorem finalStatus_cons (orig : ExpenseStatus) (eid : String) (op : ExpenseOp)
    (rest : List ExpenseOp) :
    finalStatus orig eid (op :: rest) =
      finalStatus (if opTargets op eid then opResultStatus op else orig) eid rest := by
  unfold finalStatus
  rw [List.reverse_cons, find?_append]
  cases hfind : rest.reverse.find? (fun o => opTargets o eid) with
  | some o => simp [Option.orElse, hfind]
  | none =>
    by_cases ht : opTargets op eid = true <;>
      simp [Option.orElse, hfind, List.find?, ht]

/-- C8: `approveExpense` and `rejectExpense` update only the targeted
expense's status field: branches, attendants, shifts and every `shift_data`
row (so in particular every `expenses_total` and `variance` field) are left
unchanged, every expense keeps its id, shift_data_id, description and amount,
and every expense with a different id is fully unchanged. -/
theorem forall₂_status_update (l : List Expense) (id : String) (st : ExpenseStatus) :
    List.Forall₂ (fun e e₂ => e₂.id = e.id ∧ e₂.shift_data_id = e.shift_data_id ∧
      e₂.description = e.description ∧ e₂.amount = e.amount ∧
      (e.id ≠ id → e₂ = e)) l
      (l.map (fun e => if e.id == id then { e with status := st } else e)) := by
  rw [List.forall₂_map_right_iff, List.forall₂_same]
  intro e _
  by_cases h : e.id = id
  · have hbeq : (e.id == id) = true := by simpa using h
    rw [if_pos hbeq]
    exact ⟨rfl, rfl, rfl, rfl, fun hne => absurd h hne⟩
  · have hbeq : ¬ (e.id == id) = true := by simpa using h
    rw [if_neg hbeq]
    exact ⟨rfl, rfl, rfl, rfl, fun _ => rfl⟩

theorem C8_expense_update_frame (db : Db) (id : String) :
    (approveExpense db id).branches = db.branches ∧
    (approveExpense db id).attendants = db.attendants ∧
    (approveExpense db id).shifts = db.shifts ∧
    (approveExpense db id).shift_data = db.shift_data ∧
    (rejectExpense db id).branches = db.branches ∧
    (rejectExpense db id).attendants = db.attendants ∧
    (rejectExpense db id).shifts = db.shifts ∧
    (rejectExpense db id).shift_data = db.shift_data ∧
    List.Forall₂ (fun e e₂ => e₂.id = e.id ∧ e₂.shift_data_id = e.shift_data_id ∧
      e₂.description = e.description ∧ e₂.amount = e.amount ∧
      (e.id ≠ id → e₂ = e)) db.expenses (approveExpense db id).expenses ∧
    List.Forall₂ (fun e e₂ => e₂.id = e.id ∧ e₂.shift_data_id = e.shift_data_id ∧
      e₂.description = e.description ∧ e₂.amount = e.amount ∧
      (e.id ≠ id → e₂ = e)) db.expenses (rejectExpense db id).expenses :=
  ⟨rfl, rfl, rfl, rfl, rfl, rfl, rfl, rfl,
    forall₂_status_update db.expenses id ExpenseStatus.APPROVED,
    forall₂_status_update db.expenses id ExpenseStatus.REJECTED⟩

/-- A database holding a single PENDING expense `e1`. -/
def pendingExpenseDb : Db :=
  { branches := [], attendants := [], shifts := [], shift_data := [],
    expenses := [{ id := "e1", shift_data_id := "d1", description := "fuel",
                   amount := 10, status := ExpenseStatus.PENDING }] }

/-- Witness for C8 at a concrete database and expense id. -/
theorem C8_expense_update_frame_witness :
    (approveExpense pendingExpenseDb "e1").branches = pendingExpenseDb.branches ∧
    (approveExpense pendingExpenseDb "e1").attendants = pendingExpenseDb.attendants ∧
    (approveExpense pendingExpenseDb "e1").shifts = pendingExpenseDb.shifts ∧
    (approveExpense pendingExpenseDb "e1").shift_data = pendingExpenseDb.shift_data ∧
    (rejectExpense pendingExpenseDb "e1").branches = pendingExpenseDb.branches ∧
    (rejectExpense pendingExpenseDb "e1").attendants = pendingExpenseDb.attendants ∧
    (rejectExpense pendingExpenseDb "e1").shifts = pendingExpenseDb.shifts ∧
    (rejectExpense pendingExpenseDb "e1").shift_data = pendingExpenseDb.shift_data ∧
    List.Forall₂ (fun e e₂ => e₂.id = e.id ∧ e₂.shift_data_id = e.shift_data_id ∧
      e₂.description = e.description ∧ e₂.amount = e.amount ∧
      (e.id ≠ "e1" → e₂ = e)) pendingExpenseDb.expenses
      (approveExpense pendingExpenseDb "e1").expenses ∧
    List.Forall₂ (fun e e₂ => e₂.id = e.id ∧ e₂.shift_data_id = e.shift_data_id ∧
      e₂.description = e.description ∧ e₂.amount = e.amount ∧
      (e.id ≠ "e1" → e₂ = e)) pendingExpenseDb.expenses
      (rejectExpense pendingExpenseDb "e1").expenses :=
  C8_expense_update_frame pendingExpenseDb "e1"

/-- C9 counterexample: from a PENDING expense, `approveExpense` makes it
APPROVED, and a subsequent `rejectExpense` on the same id changes the
already-APPROVED expense to REJECTED — APPROVED is not terminal. -/
theorem C9_terminality_counterexample :
    (applyOps pendingExpenseDb [ExpenseOp.approve "e1"]).expenses.map Expense.status =
      [ExpenseStatus.APPROVED] ∧
    (applyOps pendingExpenseDb
        [ExpenseOp.approve "e1", ExpenseOp.reject "e1"]).expenses.map Expense.status =
      [ExpenseStatus.REJECTED] := by
  constructor <;> rfl

/-- C9 (amended): `approveExpense` and `rejectExpense` write APPROVED resp.
REJECTED to the targeted expense unconditionally. After any sequence of these
operations, every expense keeps its identity fields, and its status is its
original status when no operation targeted it, otherwise the status written by
the last targeting operation — so the only statuses ever written are APPROVED
and REJECTED (never back to PENDING), but APPROVED and REJECTED are not
terminal: a later operation on the same id overwrites them. -/
theorem C9_expense_status_last_write (db : Db) (ops : List ExpenseOp) :
    List.Forall₂ (fun e e₂ => e₂.id = e.id ∧ e₂.shift_data_id = e.shift_data_id ∧
      e₂.description = e.description ∧ e₂.amount = e.amount ∧
      e₂.status = finalStatus e.status e.id ops)
      db.expenses (applyOps db ops).expenses := by
  induction ops generalizing db with
  | nil =>
    have hsame : List.Forall₂ (fun (e : Expense) (e₂ : Expense) =>
        e₂.id = e.id ∧ e₂.shift_data_id = e.shift_data_id ∧
        e₂.description = e.description ∧ e₂.amount = e.amount ∧
        e₂.status = finalStatus e.status e.id []) db.expenses db.expenses := by
      rw [List.forall₂_same]
      intro e _
      exact ⟨rfl, rfl, rfl, rfl, rfl⟩
    exact hsame
  | cons op rest ih =>
    have h := ih (applyOp db op)
    rw [applyOp_expenses, List.forall₂_map_left_iff] at h
    refine List.Forall₂.imp ?_ h
    intro e e₂ hrel
    rw [finalStatus_cons]
    by_cases ht : opTargets op e.id = true
    · rw [if_pos ht] at hrel ⊢
      exact hrel
    · rw [if_neg ht] at hrel ⊢
      exact hrel

/-- Witness for C9's amended theorem at a concrete database and op sequence. -/
theorem C9_expense_status_last_write_witness :
    List.Forall₂ (fun e e₂ => e₂.id = e.id ∧ e₂.shift_data_id = e.shift_data_id ∧
      e₂.description = e.description ∧ e₂.amount = e.amount ∧
      e₂.status = finalStatus e.status e.id [ExpenseOp.approve "e1", ExpenseOp.reject "e1"])
      pendingExpenseDb.expenses
      (applyOps pendingExpenseDb
        [ExpenseOp.approve "e1", ExpenseOp.reject "e1"]).expenses :=
  C9_expense_status_last_write pendingExpenseDb
    [ExpenseOp.approve "e1", ExpenseOp.reject "e1"]

/-! ### Global overview aggregation -/

/-- A `shift_data` row as returned by `getGlobalOverview`: the record joined
with the attendant name and annotated with the parent shift's date, time and
status (`api.ts` lines 127-136). -/
structure OverviewItem where
  record : ShiftDataRecord
  attendant_name : Option String
  shift_date : Option String
  shift_time : Option String
  shift_status : ShiftStatus
deriving DecidableEq, Repr

/-- The join/annotation step of `getGlobalOverview`. -/
def annotate (shifts : List Shift) (attendants : List Attendant)
    (sd : ShiftDataRecord) : OverviewItem :=
  let parent := shifts.find? (fun s => s.id == sd.shift_id)
  { record := sd,
    attendant_name := (attendants.find? (fun a => a.id == sd.attendant_id)).map
      (fun a => a.name),
    shift_date := parent.map (fun s => s.shift_date),
    shift_time := parent.map (fun s => s.shift_time),
    shift_status := (parent.map (fun s => s.status)).getD ShiftStatus.OPEN }

/-- One branch's row of the overview matrix (`api.ts` lines 165-175). -/
structure BranchAggregateRow where
  branch : Branch
  shift : Option Shift
  items : List OverviewItem
  pendingExpenses : List Expense
  totalExpected : ℚ
  totalCash : ℚ
  totalPos : ℚ
  pendingExpenseTotal : ℚ
  totalVariance : ℚ
deriving Repr

/-- `shiftDataItems` of `getGlobalOverview` (`api.ts` lines 119-137): the
`shift_data` rows whose `shift_id` is among the fetched shifts, joined and
annotated. -/
def overviewShiftDataItems (db : Db) : List OverviewItem :=
  (db.shift_data.filter
    (fun sd => (db.shifts.map (fun s => s.id)).contains sd.shift_id)).map
    (annotate db.shifts db.attendants)

/-- `pendingExpenses` of `getGlobalOverview` (`api.ts` lines 139-148): the
PENDING expenses whose `shift_data_id` is among the joined rows. -/
def overviewPendingExpenses (db : Db) : List Expense :=
  db.expenses.filter (fun e =>
    ((overviewShiftDataItems db).map (fun it => it.record.id)).contains e.shift_data_id &&
    e.status == ExpenseStatus.PENDING)

/-- One branch's matrix row (`api.ts` lines 150-176): the branch's shifts of
every status, the most recent one as representative, its joined rows and
their PENDING expenses, and the five running totals. -/
def overviewRow (db : Db) (branch : Branch) : BranchAggregateRow :=
  let branchShifts := db.shifts.filter (fun s => s.branch_id == branch.id)
  let branchShiftIds := branchShifts.map (fun s => s.id)
  let shift := branchShifts.head?
  let items := (overviewShiftDataItems db).filter
    (fun it => branchShiftIds.contains it.record.shift_id)
  let exps := if items.isEmpty then ([] : List Expense)
    else (overviewPendingExpenses db).filter
      (fun e => (items.find? (fun it => it.record.id == e.shift_data_id)).isSome)
  { branch := branch, shift := shift, items := items, pendingExpenses := exps,
    totalExpected := items.foldl (fun sum it => sum + it.record.expected_amount) 0,
    totalCash := items.foldl (fun sum it => sum + it.record.cash_remitted) 0,
    totalPos := items.foldl (fun sum it => sum + it.record.pos_remitted) 0,
    pendingExpenseTotal := exps.foldl (fun sum e => sum + e.amount) 0,
    totalVariance := items.foldl (fun sum it => sum + it.record.variance) 0 }

/-- `getGlobalOverview` (`api.ts` lines 114-179): fetch every branch and every
shift (all statuses, most recent first — `db.shifts` is taken in that query
order), join shift_data with attendant names and parent-shift fields, fetch
the PENDING expenses of those rows, and emit one aggregate row per branch. -/
def getGlobalOverview (db : Db) : List BranchAggregateRow :=
  db.branches.map (overviewRow db)

/-- The `shift_data` rows belonging to any of a branch's shifts (of any
status). -/
def branchRecords (db : Db) (b : Branch) : List ShiftDataRecord :=
  db.shift_data.filter (fun sd =>
    db.shifts.any (fun s => s.branch_id == b.id && s.id == sd.shift_id))

/-- The PENDING expenses attached to a branch's `shift_data` rows. -/
def branchPendingExpenses (db : Db) (b : Branch) : List Expense :=
  db.expenses.filter (fun e => e.status == ExpenseStatus.PENDING &&
    (branchRecords db b).any (fun sd => sd.id == e.shift_data_id))

theorem bool_eq_of_iff {a b : Bool} (h : a = true ↔ b = true) : a = b := by
  cases a <;> cases b <;> simp_all

theorem contains_iff {α : Type _} [BEq α] [LawfulBEq α] (l : List α) (a : α) :
    l.contains a = true ↔ a ∈ l :=
  List.elem_iff

theorem overviewRow_items_records (db : Db) (b : Branch) :
    (overviewRow db b).items.map (fun it => it.record) = branchRecords db b := by
  have hdef : (overviewRow db b).items =
      (overviewShiftDataItems db).filter
        (fun it => ((db.shifts.filter (fun s => s.branch_id == b.id)).map
          (fun s => s.id)).contains it.record.shift_id) := rfl
  rw [hdef]
  unfold overviewShiftDataItems
  rw [List.filter_map, List.map_map]
  rw [show ((fun (it : OverviewItem) => it.record) ∘ annotate db.shifts db.attendants) =
    id from rfl, List.map_id, List.filter_filter]
  unfold branchRecords
  apply List.filter_congr
  intro sd _
  apply bool_eq_of_iff
  simp only [Function.comp_apply, Bool.and_eq_true, contains_iff, List.mem_map,
    List.mem_filter, List.any_eq_true, beq_iff_eq]
  constructor
  · rintro ⟨⟨s, ⟨hs, hb⟩, hid⟩, -⟩
    exact ⟨s, hs, hb, hid⟩
  · rintro ⟨s, hs, hb, hid⟩
    exact ⟨⟨s, ⟨hs, hb⟩, hid⟩, ⟨s, hs, hid⟩⟩

theorem overview_row_sum (items : List OverviewItem) (f : ShiftDataRecord → ℚ) :
    items.foldl (fun sum it => sum + f it.record) 0 =
      ((items.map (fun it => it.record)).map f).sum := by
  rw [foldl_add_map (fun it => f it.record) items 0, List.map_map, zero_add]
  rfl

theorem overviewRow_pendingExpenses (db : Db) (b : Branch) :
    (overviewRow db b).pendingExpenses = branchPendingExpenses db b := by
  have hrec := overviewRow_items_records db b
  have hdef : (overviewRow db b).pendingExpenses =
      (if (overviewRow db b).items.isEmpty then ([] : List Expense)
       else (overviewPendingExpenses db).filter
         (fun e => ((overviewRow db b).items.find?
           (fun it => it.record.id == e.shift_data_id)).isSome)) := rfl
  rw [hdef]
  by_cases hempty : (overviewRow db b).items.isEmpty = true
  · rw [if_pos hempty]
    have hnil : (overviewRow db b).items = [] := List.isEmpty_iff.mp hempty
    have hbr : branchRecords db b = [] := by
      rw [← hrec, hnil]
      rfl
    unfold branchPendingExpenses
    rw [hbr]
    symm
    rw [List.filter_eq_nil_iff]
    intro e _
    simp
  · rw [if_neg hempty]
    unfold overviewPendingExpenses branchPendingExpenses
    rw [List.filter_filter]
    apply List.filter_congr
    intro e _
    apply bool_eq_of_iff
    simp only [Bool.and_eq_true, List.find?_isSome, contains_iff, List.mem_map,
      List.any_eq_true, beq_iff_eq]
    constructor
    · rintro ⟨⟨it, hit, hid⟩, ⟨-, hstat⟩⟩
      refine ⟨hstat, it.record, ?_, hid⟩
      rw [← hrec]
      exact List.mem_map.mpr ⟨it, hit, rfl⟩
    · rintro ⟨hstat, sd, hsd, hid⟩
      rw [← hrec] at hsd
      obtain ⟨it, hit, rfl⟩ := List.mem_map.mp hsd
      refine ⟨⟨it, hit, hid⟩, ⟨⟨it, ?_, hid⟩, hstat⟩⟩
      have hitems : (overviewRow db b).items =
          (overviewShiftDataItems db).filter
            (fun x => ((db.shifts.filter (fun s => s.branch_id == b.id)).map
              (fun s => s.id)).contains x.record.shift_id) := rfl
      rw [hitems] at hit
      exact (List.mem_filter.mp hit).1

/-- C3: `getGlobalOverview` emits exactly one aggregate row per branch, in
order, and every row's totalExpected, totalCash, totalPos and totalVariance
are the sums of the corresponding fields over all `shift_data` rows of all
that branch's shifts (shifts of every status), while pendingExpenseTotal sums
the amounts of exactly the PENDING expenses attached to those rows. -/
theorem C3_global_overview (db : Db) :
    (getGlobalOverview db).map (fun r => r.branch) = db.branches ∧
    ∀ row ∈ getGlobalOverview db,
      row.items.map (fun it => it.record) = branchRecords db row.branch ∧
      row.totalExpected =
        ((branchRecords db row.branch).map (fun sd => sd.expected_amount)).sum ∧
      row.totalCash =
        ((branchRecords db row.branch).map (fun sd => sd.cash_remitted)).sum ∧
      row.totalPos =
        ((branchRecords db row.branch).map (fun sd => sd.pos_remitted)).sum ∧
      row.totalVariance =
        ((branchRecords db row.branch).map (fun sd => sd.variance)).sum ∧
      row.pendingExpenses = branchPendingExpenses db row.branch ∧
      row.pendingExpenseTotal =
        ((branchPendingExpenses db row.branch).map (fun e => e.amount)).sum := by
  constructor
  · unfold getGlobalOverview
    rw [List.map_map]
    have hpt : ∀ b ∈ db.branches,
        ((fun r : BranchAggregateRow => r.branch) ∘ overviewRow db) b = id b :=
      fun b _ => rfl
    rw [List.map_congr_left hpt, List.map_id]
  · intro row hrow
    obtain ⟨b, _hb, rfl⟩ := List.mem_map.mp hrow
    have hrec := overviewRow_items_records db b
    have hbr : (overviewRow db b).branch = b := rfl
    have hsum : ∀ f : ShiftDataRecord → ℚ,
        (overviewRow db b).items.foldl (fun sum it => sum + f it.record) 0 =
          ((branchRecords db b).map f).sum := by
      intro f
      rw [overview_row_sum (overviewRow db b).items f, hrec]
    have hexp : (overviewRow db b).totalExpected =
        (overviewRow db b).items.foldl
          (fun sum it => sum + it.record.expected_amount) 0 := rfl
    have hcash : (overviewRow db b).totalCash =
        (overviewRow db b).items.foldl
          (fun sum it => sum + it.record.cash_remitted) 0 := rfl
    have hpos : (overviewRow db b).totalPos =
        (overviewRow db b).items.foldl
          (fun sum it => sum + it.record.pos_remitted) 0 := rfl
    have hvar : (overviewRow db b).totalVariance =
        (overviewRow db b).items.foldl
          (fun sum it => sum + it.record.variance) 0 := rfl
    have hpend := overviewRow_pendingExpenses db b
    have hpendTot : (overviewRow db b).pendingExpenseTotal =
        (overviewRow db b).pendingExpenses.foldl (fun sum e => sum + e.amount) 0 := rfl
    refine ⟨hbr ▸ hrec, ?_, ?_, ?_, ?_, hbr ▸ hpend, ?_⟩
    · rw [hbr, hexp, hsum (fun sd => sd.expected_amount)]
    · rw [hbr, hcash, hsum (fun sd => sd.cash_remitted)]
    · rw [hbr, hpos, hsum (fun sd => sd.pos_remitted)]
    · rw [hbr, hvar, hsum (fun sd => sd.variance)]
    · rw [hbr, hpendTot, hpend, foldl_add_map (fun e : Expense => e.amount) _ 0, zero_add]

/-- Branch X of scenario B. -/
def branchX : Branch := { id := "bX", name := "X" }

/-- Branch Y of scenario B (no data). -/
def branchY : Branch := { id := "bY", name := "Y" }

/-- First scenario-B row: expected 100, cash 90, pos 0, variance -10. -/
def scenarioRow1 : ShiftDataRecord :=
  { id := "r1", shift_id := "s1", attendant_id := "a1", pump_product := "PMS - Pump 1",
    expected_amount := 100, cash_remitted := 90, pos_remitted := 0,
    expenses_total := 0, variance := -10 }

/-- Second scenario-B row: expected 200, cash 200, pos 0, variance 0. -/
def scenarioRow2 : ShiftDataRecord :=
  { id := "r2", shift_id := "s1", attendant_id := "a2", pump_product := "PMS - Pump 2",
    expected_amount := 200, cash_remitted := 200, pos_remitted := 0,
    expenses_total := 0, variance := 0 }

/-- Scenario B database: two branches, branch X holding the two rows above. -/
def scenarioBDb : Db :=
  { branches := [branchX, branchY],
    attendants := [{ id := "a1", name := "Ada", branch_id := "bX" },
                   { id := "a2", name := "Bea", branch_id := "bX" }],
    shifts := [{ id := "s1", branch_id := "bX", shift_date := "2025-01-01",
                 shift_time := "Morning", status := ShiftStatus.OPEN }],
    shift_data := [scenarioRow1, scenarioRow2],
    expenses := [] }

/-- Witness for C3 at scenario B: one row per branch, and branch X's totals
are totalExpected 300, totalCash 290, totalVariance -10. -/
theorem C3_global_overview_witness :
    (getGlobalOverview scenarioBDb).map (fun r => r.branch) = scenarioBDb.branches ∧
    overviewRow scenarioBDb branchX ∈ getGlobalOverview scenarioBDb ∧
    (overviewRow scenarioBDb branchX).totalExpected = 300 ∧
    (overviewRow scenarioBDb branchX).totalCash = 290 ∧
    (overviewRow scenarioBDb branchX).totalVariance = -10 := by
  have h := C3_global_overview scenarioBDb
  have hmem : overviewRow scenarioBDb branchX ∈ getGlobalOverview scenarioBDb :=
    List.mem_map.mpr ⟨branchX, List.mem_cons_self _ _, rfl⟩
  have h2 := h.2 (overviewRow scenarioBDb branchX) hmem
  have hbrX : branchRecords scenarioBDb (overviewRow scenarioBDb branchX).branch =
      [scenarioRow1, scenarioRow2] := by rfl
  refine ⟨h.1, hmem, ?_, ?_, ?_⟩
  · rw [h2.2.1, hbrX]
    norm_num [scenarioRow1, scenarioRow2]
  · rw [h2.2.2.1, hbrX]
    norm_num [scenarioRow1, scenarioRow2]
  · rw [h2.2.2.2.2.1, hbrX]
    norm_num [scenarioRow1, scenarioRow2]

/-! ### Reconciliation matcher -/

/-- The case-insensitive attendant-name test used on overview items
(`item.attendant_name?.toLowerCase() === name.toLowerCase()`). -/
def itemNameMatches (item : OverviewItem) (attendantName : String) : Bool :=
  match item.attendant_name with
  | some n => jsToLower n == jsToLower attendantName
  | none => false

/-- `attendantRemitted` (`CashAnalysis.tsx` lines 66-77, `ManualDataEntry.tsx`
lines 96-105): null unless a branch and an attendant name are selected, the
branch has an overview row, and that row has items matching the name
case-insensitively; otherwise the sum of `cash_remitted + pos_remitted` over
the matching items. -/
def attendantRemitted (matrix : List BranchAggregateRow)
    (branchId attendantName : String) : Option ℚ :=
  if branchId.isEmpty || attendantName.isEmpty then none
  else
    match matrix.find? (fun r => r.branch.id == branchId) with
    | none => none
    | some branchRow =>
      let matchingItems := branchRow.items.filter
        (fun item => itemNameMatches item attendantName)
      if matchingItems.isEmpty then none
      else some (matchingItems.foldl
        (fun sum item => sum + item.record.cash_remitted + item.record.pos_remitted) 0)

/-- `isMatched` (`ManualDataEntry.tsx` line 108, `CashAnalysis.tsx` line 80):
a ledger total exists and the declared total is within 1 of it. -/
def isMatched (declared : ℚ) (remitted : Option ℚ) : Bool :=
  match remitted with
  | none => false
  | some r => decide (|declared - r| < 1)

/-- `hasMismatch` (`ManualDataEntry.tsx` line 109, `CashAnalysis.tsx` line 81):
a ledger total exists and the declared total is at least 1 away from it. -/
def hasMismatch (declared : ℚ) (remitted : Option ℚ) : Bool :=
  match remitted with
  | none => false
  | some r => decide (1 ≤ |declared - r|)

/-- The three observable reconciliation outcomes. -/
inductive ReconStatus
  | MATCHED
  | MISMATCH
  | INDETERMINATE
deriving DecidableEq, Repr

/-- Observable outcome of the reconciliation banner together with the
displayed difference `declared - remitted` (shown only on a mismatch; 0 used
as placeholder when no ledger total exists and no banner is rendered). -/
def matchReconciliation (declared : ℚ) (remitted : Option ℚ) : ReconStatus × ℚ :=
  match remitted with
  | none => (ReconStatus.INDETERMINATE, 0)
  | some r =>
    if |declared - r| < 1 then (ReconStatus.MATCHED, declared - r)
    else (ReconStatus.MISMATCH, declared - r)

theorem foldl_add_pair (l : List OverviewItem) (a : ℚ) :
    l.foldl (fun sum item => sum + item.record.cash_remitted +
      item.record.pos_remitted) a =
      a + (l.map (fun item => item.record.cash_remitted +
        item.record.pos_remitted)).sum := by
  induction l generalizing a with
  | nil => simp
  | cons x xs ih =>
    rw [List.foldl_cons, ih, List.map_cons, List.sum_cons]
    ring

/-- C4: with `remitted` the sum of `cash_remitted + pos_remitted` over the
branch row's items whose attendant name equals the declared attendant name
case-insensitively, the reconciliation outcome is MATCHED exactly when
`|declared - remitted| < 1`, MISMATCH with difference `declared - remitted`
exactly when `|declared - remitted| ≥ 1`, and INDETERMINATE (neither matched
nor mismatched) when no such ledger rows exist for the attendant. -/
theorem C4_reconciliation_matcher (matrix : List BranchAggregateRow)
    (branchId attendantName : String) (declared : ℚ) :
    (∀ r, attendantRemitted matrix branchId attendantName = some r →
      (∃ row, matrix.find? (fun x => x.branch.id == branchId) = some row ∧
        r = ((row.items.filter (fun item => itemNameMatches item attendantName)).map
          (fun item => item.record.cash_remitted + item.record.pos_remitted)).sum ∧
        row.items.filter (fun item => itemNameMatches item attendantName) ≠ []) ∧
      ((matchReconciliation declared (some r)).1 = ReconStatus.MATCHED ↔
        |declared - r| < 1) ∧
      ((matchReconciliation declared (some r)).1 = ReconStatus.MISMATCH ↔
        1 ≤ |declared - r|) ∧
      (matchReconciliation declared (some r)).2 = declared - r ∧
      (isMatched declared (some r) = true ↔ |declared - r| < 1) ∧
      (hasMismatch declared (some r) = true ↔ 1 ≤ |declared - r|)) ∧
    (attendantRemitted matrix branchId attendantName = none →
      matchReconciliation declared (attendantRemitted matrix branchId attendantName) =
        (ReconStatus.INDETERMINATE, 0) ∧
      isMatched declared none = false ∧ hasMismatch declared none = false) ∧
    (∀ row, matrix.find? (fun x => x.branch.id == branchId) = some row →
      branchId.isEmpty = false → attendantName.isEmpty = false →
      (attendantRemitted matrix branchId attendantName = none ↔
        row.items.filter (fun item => itemNameMatches item attendantName) = [])) := by
  have hcase : ∀ r : ℚ, matchReconciliation declared (some r) =
      (if |declared - r| < 1 then (ReconStatus.MATCHED, declared - r)
       else (ReconStatus.MISMATCH, declared - r)) := fun _ => rfl
  refine ⟨?_, ?_, ?_⟩
  · intro r hr
    refine ⟨?_, ?_, ?_, ?_, ?_, ?_⟩
    · unfold attendantRemitted at hr
      by_cases hguard : (branchId.isEmpty || attendantName.isEmpty) = true
      · rw [if_pos hguard] at hr
        exact absurd hr (by simp)
      · rw [if_neg hguard] at hr
        cases hfind : matrix.find? (fun x => x.branch.id == branchId) with
        | none =>
          rw [hfind] at hr
          exact absurd hr (by simp)
        | some row =>
          rw [hfind] at hr
          replace hr : (if (row.items.filter
              (fun item => itemNameMatches item attendantName)).isEmpty then none
            else some ((row.items.filter
              (fun item => itemNameMatches item attendantName)).foldl
              (fun sum item => sum + item.record.cash_remitted +
                item.record.pos_remitted) 0)) = some r := hr
          by_cases hmt : (row.items.filter
              (fun item => itemNameMatches item attendantName)).isEmpty = true
          · rw [if_pos hmt] at hr
            exact absurd hr (by simp)
          · rw [if_neg hmt] at hr
            refine ⟨row, rfl, ?_, fun hnil => hmt (by rw [hnil]; rfl)⟩
            have hr₂ := Option.some.inj hr
            rw [← hr₂, foldl_add_pair, zero_add]
    · rw [hcase r]
      by_cases hlt : |declared - r| < 1
      · rw [if_pos hlt]
        simp [hlt]
      · rw [if_neg hlt]
        simp [hlt]
    · rw [hcase r]
      by_cases hlt : |declared - r| < 1
      · rw [if_pos hlt]
        simp [not_le.mpr hlt]
      · rw [if_neg hlt]
        simp [le_of_not_lt hlt]
    · rw [hcase r]
      by_cases hlt : |declared - r| < 1
      · rw [if_pos hlt]
      · rw [if_neg hlt]
    · simp [isMatched]
    · simp [hasMismatch]
  · intro h
    refine ⟨?_, rfl, rfl⟩
    rw [h]
    rfl
  · intro row hfind hbid hname
    have heval : attendantRemitted matrix branchId attendantName =
        (if (row.items.filter
            (fun item => itemNameMatches item attendantName)).isEmpty then none
         else some ((row.items.filter
            (fun item => itemNameMatches item attendantName)).foldl
           (fun sum item => sum + item.record.cash_remitted +
             item.record.pos_remitted) 0)) := by
      unfold attendantRemitted
      rw [if_neg (by simp [hbid, hname]), hfind]
    rw [heval]
    by_cases hmt : (row.items.filter
        (fun item => itemNameMatches item attendantName)).isEmpty = true
    · rw [if_pos hmt]
      exact ⟨fun _ => List.isEmpty_iff.mp hmt, fun _ => rfl⟩
    · rw [if_neg hmt]
      exact ⟨fun hsome => absurd hsome (by simp),
        fun hnil => (hmt (by rw [hnil]; rfl)).elim⟩

/-- Witness for C4 on the scenario-B overview: attendant "Ada" matched
case-insensitively as "ada" has ledger total 90; a declared total of 100 is a
MISMATCH with difference 10; an unknown attendant "zoe" is INDETERMINATE. -/
theorem C4_reconciliation_matcher_witness :
    attendantRemitted (getGlobalOverview scenarioBDb) "bX" "ada" = some 90 ∧
    (matchReconciliation 100 (some (90 : ℚ))).1 = ReconStatus.MISMATCH ∧
    (matchReconciliation 100 (some (90 : ℚ))).2 = 10 ∧
    attendantRemitted (getGlobalOverview scenarioBDb) "bX" "zoe" = none ∧
    (matchReconciliation 100
      (attendantRemitted (getGlobalOverview scenarioBDb) "bX" "zoe")).1 =
      ReconStatus.INDETERMINATE := by
  have hsum : attendantRemitted (getGlobalOverview scenarioBDb) "bX" "ada" =
      some ((0 : ℚ) + 90 + 0) := rfl
  have h90 : ((0 : ℚ) + 90 + 0) = 90 := by norm_num
  have hr : attendantRemitted (getGlobalOverview scenarioBDb) "bX" "ada" = some 90 := by
    rw [hsum, h90]
  have h := C4_reconciliation_matcher (getGlobalOverview scenarioBDb) "bX" "ada" 100
  have hm := h.1 90 hr
  have h₂ := C4_reconciliation_matcher (getGlobalOverview scenarioBDb) "bX" "zoe" 100
  have hnone : attendantRemitted (getGlobalOverview scenarioBDb) "bX" "zoe" = none := rfl
  refine ⟨hr, ?_, ?_, hnone, ?_⟩
  · exact hm.2.2.1.mpr (by norm_num)
  · rw [hm.2.2.2.1]
    norm_num
  · rw [(h₂.2.1 hnone).1]

/-! ### Trend aggregation -/

/-- Lexicographic less-or-equal on code-point sequences, the order
`localeCompare` induces on canonical `YYYY-MM-DD` date strings. -/
def lexLe : List Nat → List Nat → Bool
  | [], _ => true
  | _ :: _, [] => false
  | a :: as, b :: bs => if a < b then true else if b < a then false else lexLe as bs

/-- Code-point sequence of a string. -/
def dateKey (s : String) : List Nat := s.data.map Char.toNat

/-- Date-string comparison used for the trailing-window filter (`gte`) and
the ascending sort (`localeCompare`). -/
def dateLe (a b : String) : Bool := lexLe (dateKey a) (dateKey b)

theorem lexLe_total (as : List Nat) : ∀ bs, lexLe as bs = true ∨ lexLe bs as = true := by
  induction as with
  | nil => intro bs; left; rfl
  | cons a as ih =>
    intro bs
    cases bs with
    | nil => right; rfl
    | cons b bs =>
      by_cases hab : a < b
      · left
        simp [lexLe, hab]
      · by_cases hba : b < a
        · right
          simp [lexLe, hba]
        · have hne : ¬ a < b := hab
          rcases ih bs with h | h
          · left
            simp [lexLe, hab, hba, h]
          · right
            simp [lexLe, hab, hba, h]

theorem lexLe_trans (as : List Nat) : ∀ bs cs, lexLe as bs = true →
    lexLe bs cs = true → lexLe as cs = true := by
  induction as with
  | nil => intro bs cs _ _; rfl
  | cons a as ih =>
    intro bs cs h₁ h₂
    cases bs with
    | nil => simp [lexLe] at h₁
    | cons b bs =>
      cases cs with
      | nil => simp [lexLe] at h₂
      | cons c cs =>
        by_cases hab : a < b
        · by_cases hbc : b < c
          · simp [lexLe, lt_trans hab hbc]
          · by_cases hcb : c < b
            · simp [lexLe, hbc, hcb] at h₂
            · have hbceq : b = c := le_antisymm (le_of_not_lt hcb) (le_of_not_lt hbc)
              simp [lexLe, hbceq ▸ hab]
        · by_cases hba : b < a
          · simp [lexLe, hab, hba] at h₁
          · have habeq : a = b := le_antisymm (le_of_not_lt hba) (le_of_not_lt hab)
            simp only [lexLe, hab, hba, if_false] at h₁
            by_cases hbc : b < c
            · simp [lexLe, habeq ▸ hbc]
            · by_cases hcb : c < b
              · simp [lexLe, hbc, hcb] at h₂
              · have hbceq : b = c := le_antisymm (le_of_not_lt hcb) (le_of_not_lt hbc)
                simp only [lexLe, hbc, hcb, if_false] at h₂
                have hac : ¬ a < c := hbceq ▸ habeq ▸ lt_irrefl a
                have hca : ¬ c < a := hbceq ▸ habeq ▸ lt_irrefl a
                simp [lexLe, hac, hca, ih bs cs h₁ h₂]

theorem dateLe_total (a b : String) : dateLe a b = true ∨ dateLe b a = true :=
  lexLe_total (dateKey a) (dateKey b)

theorem dateLe_trans (a b c : String) (h₁ : dateLe a b = true) (h₂ : dateLe b c = true) :
    dateLe a c = true :=
  lexLe_trans (dateKey a) (dateKey b) (dateKey c) h₁ h₂

/-- A `shift_data` row joined with its parent shift's date, as fetched by
`getTrendData` (`api.ts` lines 77-86). -/
structure TrendItem where
  shift_date : String
  expected_amount : ℚ
  cash_remitted : ℚ
  pos_remitted : ℚ
  variance : ℚ
deriving DecidableEq, Repr

/-- One output day of the trend series; the weekday display label is
presentation-only and omitted. -/
structure TrendPoint where
  date : String
  variance : ℚ
  claimed : ℚ
  actual : ℚ
deriving DecidableEq, Repr

/-- Accumulate one row into a day entry (`api.ts` lines 100-105):
`variance += item.variance`, `claimed += max(0, expected - cash)`,
`actual += pos`. -/
def trendAdd (e : TrendPoint) (it : TrendItem) : TrendPoint :=
  { e with
    variance := e.variance + it.variance,
    claimed := e.claimed + max 0 (it.expected_amount - it.cash_remitted),
    actual := e.actual + it.pos_remitted }

/-- One step of the day-bucketing reduce (`api.ts` lines 91-108): a zeroed
entry is created on first sight of a date, then the row is accumulated. -/
def trendUpsert (acc : List TrendPoint) (it : TrendItem) : List TrendPoint :=
  if acc.any (fun e => e.date == it.shift_date) then
    acc.map (fun e => if e.date == it.shift_date then trendAdd e it else e)
  else
    acc ++ [trendAdd { date := it.shift_date, variance := 0, claimed := 0, actual := 0 } it]

/-- `getTrendData` (`api.ts` lines 72-112) with the trailing-window cutoff
supplied as a canonical date string: keep rows whose parent shift date is at
least the cutoff, bucket per day in first-seen order, then sort ascending by
date. -/
def getTrendData (cutoff : String) (items : List TrendItem) : List TrendPoint :=
  List.insertionSort (fun a b => dateLe a.date b.date = true)
    ((items.filter (fun it => dateLe cutoff it.shift_date)).foldl trendUpsert [])

/-- Sum of variances over a day's rows. -/
def dayVariance (items : List TrendItem) (d : String) : ℚ :=
  ((items.filter (fun it => it.shift_date == d)).map (fun it => it.variance)).sum

/-- Sum of the claimed-POS proxy `max(0, expected - cash)` over a day's rows. -/
def dayClaimed (items : List TrendItem) (d : String) : ℚ :=
  ((items.filter (fun it => it.shift_date == d)).map
    (fun it => max 0 (it.expected_amount - it.cash_remitted))).sum

/-- Sum of `pos_remitted` over a day's rows. -/
def dayActual (items : List TrendItem) (d : String) : ℚ :=
  ((items.filter (fun it => it.shift_date == d)).map (fun it => it.pos_remitted)).sum

theorem daySum_cons (f : TrendItem → ℚ) (it : TrendItem) (rest : List TrendItem)
    (d : String) :
    ((List.filter (fun x => x.shift_date == d) (it :: rest)).map f).sum =
      (if it.shift_date = d then f it else 0) +
      ((rest.filter (fun x => x.shift_date == d)).map f).sum := by
  by_cases h : it.shift_date = d <;> simp [List.filter_cons, h]

theorem dayVariance_cons (it : TrendItem) (rest : List TrendItem) (d : String) :
    dayVariance (it :: rest) d =
      (if it.shift_date = d then it.variance else 0) + dayVariance rest d :=
  daySum_cons (fun x => x.variance) it rest d

theorem dayClaimed_cons (it : TrendItem) (rest : List TrendItem) (d : String) :
    dayClaimed (it :: rest) d =
      (if it.shift_date = d then max 0 (it.expected_amount - it.cash_remitted) else 0) +
      dayClaimed rest d :=
  daySum_cons (fun x => max 0 (x.expected_amount - x.cash_remitted)) it rest d

theorem dayActual_cons (it : TrendItem) (rest : List TrendItem) (d : String) :
    dayActual (it :: rest) d =
      (if it.shift_date = d then it.pos_remitted else 0) + dayActual rest d :=
  daySum_cons (fun x => x.pos_remitted) it rest d

theorem trendUpsert_dates (acc : List TrendPoint) (it : TrendItem) :
    (trendUpsert acc it).map (fun e => e.date) =
      (if acc.any (fun e => e.date == it.shift_date) then acc.map (fun e => e.date)
       else acc.map (fun e => e.date) ++ [it.shift_date]) := by
  unfold trendUpsert
  by_cases hany : acc.any (fun e => e.date == it.shift_date) = true
  · rw [if_pos hany, if_pos hany, List.map_map]
    apply List.map_congr_left
    intro e _
    by_cases hc : (e.date == it.shift_date) = true
    · simp only [Function.comp_apply, if_pos hc]
      rfl
    · simp only [Function.comp_apply, if_neg hc]
  · rw [if_neg hany, if_neg hany, List.map_append]
    rfl

theorem not_any_date (acc : List TrendPoint) (d : String)
    (h : ¬ acc.any (fun e => e.date == d) = true) :
    d ∉ acc.map (fun e => e.date) := by
  intro hmem
  obtain ⟨e, he, heq⟩ := List.mem_map.mp hmem
  exact h (List.any_eq_true.mpr ⟨e, he, by simpa using heq⟩)

theorem any_date_mem (acc : List TrendPoint) (d : String)
    (h : acc.any (fun e => e.date == d) = true) :
    d ∈ acc.map (fun e => e.date) := by
  obtain ⟨e, he, heq⟩ := List.any_eq_true.mp h
  exact List.mem_map.mpr ⟨e, he, by simpa using heq⟩

theorem trendUpsert_dates_nodup (acc : List TrendPoint) (it : TrendItem)
    (h : (acc.map (fun e => e.date)).Nodup) :
    ((trendUpsert acc it).map (fun e => e.date)).Nodup := by
  rw [trendUpsert_dates]
  by_cases hany : acc.any (fun e => e.date == it.shift_date) = true
  · rw [if_pos hany]
    exact h
  · rw [if_neg hany]
    have hmem := not_any_date acc it.shift_date hany
    rw [List.nodup_append]
    refine ⟨h, List.nodup_singleton _, ?_⟩
    intro a ha hb
    rw [List.mem_singleton] at hb
    exact hmem (hb ▸ ha)

theorem trendUpsert_mem (acc : List TrendPoint) (it : TrendItem) (d : String) :
    d ∈ (trendUpsert acc it).map (fun e => e.date) ↔
      d ∈ acc.map (fun e => e.date) ∨ d = it.shift_date := by
  rw [trendUpsert_dates]
  by_cases hany : acc.any (fun e => e.date == it.shift_date) = true
  · rw [if_pos hany]
    constructor
    · exact Or.inl
    · rintro (h | rfl)
      · exact h
      · exact any_date_mem acc it.shift_date hany
  · rw [if_neg hany]
    rw [List.mem_append, List.mem_singleton]

theorem trendUpsert_cases (acc : List TrendPoint) (it : TrendItem) :
    ∀ e₁ ∈ trendUpsert acc it,
      (∃ e₀ ∈ acc, e₀.date = e₁.date ∧
        e₁.variance = e₀.variance +
          (if e₁.date = it.shift_date then it.variance else 0) ∧
        e₁.claimed = e₀.claimed +
          (if e₁.date = it.shift_date then
            max 0 (it.expected_amount - it.cash_remitted) else 0) ∧
        e₁.actual = e₀.actual +
          (if e₁.date = it.shift_date then it.pos_remitted else 0)) ∨
      (e₁.date ∉ acc.map (fun e => e.date) ∧ e₁.date = it.shift_date ∧
        e₁.variance = it.variance ∧
        e₁.claimed = max 0 (it.expected_amount - it.cash_remitted) ∧
        e₁.actual = it.pos_remitted) := by
  unfold trendUpsert
  by_cases hany : acc.any (fun e => e.date == it.shift_date) = true
  · rw [if_pos hany]
    intro e₁ he₁
    obtain ⟨e₀, he₀, rfl⟩ := List.mem_map.mp he₁
    left
    by_cases hd : e₀.date = it.shift_date
    · have hb : (e₀.date == it.shift_date) = true := by simpa using hd
      rw [if_pos hb]
      have hdate : (trendAdd e₀ it).date = e₀.date := rfl
      refine ⟨e₀, he₀, hdate.symm, ?_, ?_, ?_⟩ <;>
        rw [hdate, if_pos hd] <;> rfl
    · have hb : ¬ (e₀.date == it.shift_date) = true := by simpa using hd
      rw [if_neg hb]
      refine ⟨e₀, he₀, rfl, ?_, ?_, ?_⟩ <;>
        rw [if_neg hd] <;> exact (add_zero _).symm
  · rw [if_neg hany]
    intro e₁ he₁
    rcases List.mem_append.mp he₁ with hin | hnew
    · left
      have hd : ¬ e₁.date = it.shift_date := by
        intro hcontra
        exact hany (List.any_eq_true.mpr ⟨e₁, hin, by simpa using hcontra⟩)
      refine ⟨e₁, hin, rfl, ?_, ?_, ?_⟩ <;>
        rw [if_neg hd] <;> exact (add_zero _).symm
    · rw [List.mem_singleton] at hnew
      subst hnew
      right
      refine ⟨?_, rfl, ?_, ?_, ?_⟩
      · exact not_any_date acc it.shift_date hany
      · exact zero_add _
      · exact zero_add _
      · exact zero_add _

theorem trend_fold_spec (xs : List TrendItem) : ∀ acc : List TrendPoint,
    (acc.map (fun e => e.date)).Nodup →
    (((xs.foldl trendUpsert acc).map (fun e => e.date)).Nodup ∧
     (∀ d, d ∈ (xs.foldl trendUpsert acc).map (fun e => e.date) ↔
        d ∈ acc.map (fun e => e.date) ∨ d ∈ xs.map (fun it => it.shift_date)) ∧
     (∀ e ∈ xs.foldl trendUpsert acc,
        (∃ e₀ ∈ acc, e₀.date = e.date ∧
          e.variance = e₀.variance + dayVariance xs e.date ∧
          e.claimed = e₀.claimed + dayClaimed xs e.date ∧
          e.actual = e₀.actual + dayActual xs e.date) ∨
        (e.date ∉ acc.map (fun x => x.date) ∧
          e.variance = dayVariance xs e.date ∧
          e.claimed = dayClaimed xs e.date ∧
          e.actual = dayActual xs e.date))) := by
  induction xs with
  | nil =>
    intro acc hnodup
    refine ⟨hnodup, ?_, ?_⟩
    · intro d
      simp
    · intro e he
      left
      exact ⟨e, he, rfl, by simp [dayVariance], by simp [dayClaimed],
        by simp [dayActual]⟩
  | cons it rest ih =>
    intro acc hnodup
    rw [List.foldl_cons]
    have hnodup' := trendUpsert_dates_nodup acc it hnodup
    obtain ⟨ihN, ihM, ihE⟩ := ih (trendUpsert acc it) hnodup'
    refine ⟨ihN, ?_, ?_⟩
    · intro d
      rw [ihM d]
      constructor
      · rintro (h | h)
        · rcases (trendUpsert_mem acc it d).mp h with h' | h'
          · exact Or.inl h'
          · right
            rw [List.map_cons, List.mem_cons]
            exact Or.inl h'
        · right
          rw [List.map_cons, List.mem_cons]
          exact Or.inr h
      · rintro (h | h)
        · exact Or.inl ((trendUpsert_mem acc it d).mpr (Or.inl h))
        · rw [List.map_cons, List.mem_cons] at h
          rcases h with h | h
          · exact Or.inl ((trendUpsert_mem acc it d).mpr (Or.inr h))
          · exact Or.inr h
    · intro e he
      rcases ihE e he with ⟨e₁, he₁, hdate, hv, hc, ha⟩ | ⟨hnot, hv, hc, ha⟩
      · rcases trendUpsert_cases acc it e₁ he₁ with
          ⟨e₀, he₀, hdate₀, hv₀, hc₀, ha₀⟩ | ⟨hnin, hdit, hv₀, hc₀, ha₀⟩
        · left
          refine ⟨e₀, he₀, hdate₀.trans hdate, ?_, ?_, ?_⟩
          · rw [hv, hv₀, dayVariance_cons, hdate]
            by_cases hd : e.date = it.shift_date
            · rw [if_pos hd, if_pos hd.symm]
              ring
            · rw [if_neg hd, if_neg (fun hcontra => hd hcontra.symm)]
              ring
          · rw [hc, hc₀, dayClaimed_cons, hdate]
            by_cases hd : e.date = it.shift_date
            · rw [if_pos hd, if_pos hd.symm]
              ring
            · rw [if_neg hd, if_neg (fun hcontra => hd hcontra.symm)]
              ring
          · rw [ha, ha₀, dayActual_cons, hdate]
            by_cases hd : e.date = it.shift_date
            · rw [if_pos hd, if_pos hd.symm]
              ring
            · rw [if_neg hd, if_neg (fun hcontra => hd hcontra.symm)]
              ring
        · right
          have hit : it.shift_date = e.date := hdit.symm.trans hdate
          refine ⟨hdate ▸ hnin, ?_, ?_, ?_⟩
          · rw [hv, hv₀, dayVariance_cons, if_pos hit]
          · rw [hc, hc₀, dayClaimed_cons, if_pos hit]
          · rw [ha, ha₀, dayActual_cons, if_pos hit]
      · right
        have hnotacc : e.date ∉ acc.map (fun x => x.date) :=
          fun hmem => hnot ((trendUpsert_mem acc it e.date).mpr (Or.inl hmem))
        have hne : ¬ it.shift_date = e.date :=
          fun heq => hnot ((trendUpsert_mem acc it e.date).mpr (Or.inr heq.symm))
        refine ⟨hnotacc, ?_, ?_, ?_⟩
        · rw [hv, dayVariance_cons, if_neg hne, zero_add]
        · rw [hc, dayClaimed_cons, if_neg hne, zero_add]
        · rw [ha, dayActual_cons, if_neg hne, zero_add]

/-- C5: `getTrendData` groups the rows whose parent-shift date is within the
window (date ≥ cutoff) by day: the output has exactly one entry per distinct
day of the filtered rows, each entry's variance/claimed/actual are the sums of
`variance`, `max 0 (expected - cash)` and `pos_remitted` over that day's rows,
and the output is sorted ascending by date. -/
theorem C5_trend_aggregation (cutoff : String) (items : List TrendItem) :
    ((getTrendData cutoff items).map (fun e => e.date)).Nodup ∧
    (∀ d, d ∈ (getTrendData cutoff items).map (fun e => e.date) ↔
      d ∈ (items.filter (fun it => dateLe cutoff it.shift_date)).map
        (fun it => it.shift_date)) ∧
    (∀ e ∈ getTrendData cutoff items,
      e.variance =
        dayVariance (items.filter (fun it => dateLe cutoff it.shift_date)) e.date ∧
      e.claimed =
        dayClaimed (items.filter (fun it => dateLe cutoff it.shift_date)) e.date ∧
      e.actual =
        dayActual (items.filter (fun it => dateLe cutoff it.shift_date)) e.date) ∧
    (getTrendData cutoff items).Pairwise (fun a b => dateLe a.date b.date = true) := by
  obtain ⟨hN, hM, hE⟩ :=
    trend_fold_spec (items.filter (fun it => dateLe cutoff it.shift_date)) [] (by simp)
  have hperm : (getTrendData cutoff items).Perm
      ((items.filter (fun it => dateLe cutoff it.shift_date)).foldl trendUpsert []) :=
    List.perm_insertionSort _ _
  refine ⟨?_, ?_, ?_, ?_⟩
  · exact ((hperm.map (fun e => e.date)).nodup_iff).mpr hN
  · intro d
    rw [(hperm.map (fun e => e.date)).mem_iff, hM d]
    simp
  · intro e he
    have he₂ := hperm.mem_iff.mp he
    rcases hE e he₂ with ⟨e₀, he₀, -⟩ | ⟨-, hv, hc, ha⟩
    · exact absurd he₀ (List.not_mem_nil e₀)
    · exact ⟨hv, hc, ha⟩
  · exact @List.sorted_insertionSort TrendPoint
      (fun a b => dateLe a.date b.date = true) _
      ⟨fun a b => dateLe_total a.date b.date⟩
      ⟨fun a b c => dateLe_trans a.date b.date c.date⟩ _

/-- Two rows on the same day with variances -500 and +200. -/
def trendExampleItems : List TrendItem :=
  [{ shift_date := "2025-01-02", expected_amount := 1000, cash_remitted := 1500,
     pos_remitted := 0, variance := -500 },
   { shift_date := "2025-01-02", expected_amount := 700, cash_remitted := 500,
     pos_remitted := 0, variance := 200 }]

/-- Witness for C5: the two same-day rows roll up to a single day entry whose
variance is -300, with distinct sorted dates. -/
theorem C5_trend_aggregation_witness :
    ((getTrendData "2025-01-01" trendExampleItems).map (fun e => e.date)).Nodup ∧
    (getTrendData "2025-01-01" trendExampleItems).map (fun e => e.date) =
      ["2025-01-02"] ∧
    (getTrendData "2025-01-01" trendExampleItems).map (fun e => e.variance) =
      [-300] ∧
    (getTrendData "2025-01-01" trendExampleItems).Pairwise
      (fun a b => dateLe a.date b.date = true) := by
  have h := C5_trend_aggregation "2025-01-01" trendExampleItems
  refine ⟨h.1, by rfl, ?_, h.2.2.2⟩
  have hlist : (getTrendData "2025-01-01" trendExampleItems).map (fun e => e.variance) =
      [0 + (-500) + 200] := rfl
  rw [hlist]
  norm_num

/-! ### Bulk import (uploadShiftDataBatch) -/

/-- One CSV row after the column-alias resolution of `uploadShiftDataBatch`
(`api.ts` lines 194, 200-202, 254, 277-279): the branch token
(`branch_id || branch || branch_name || Branch`), the attendant token, the
optional date/time/pump columns, and the parsed numeric columns — `none`
when every alias for the column is missing (`parseFloat` of unparsable text
yields NaN, which lies outside this rational model). -/
structure CsvRow where
  branch : String
  attendant_name : String
  date : Option String
  time : Option String
  pump_product : Option String
  expected : Option ℚ
  cash : Option ℚ
  pos : Option ℚ
deriving DecidableEq, Repr

/-- `parseFloat(row.expected_amount || ... || 0)`: a missing column parses
to 0. -/
def rowExpected (r : CsvRow) : ℚ := r.expected.getD 0

/-- `parseFloat(row.cash_remitted || ... || 0)`. -/
def rowCash (r : CsvRow) : ℚ := r.cash.getD 0

/-- `parseFloat(row.pos_remitted || ... || 0)`. -/
def rowPos (r : CsvRow) : ℚ := r.pos.getD 0

/-- The branch map (`api.ts` lines 183-190): `String(b.id) ↦ b.id` and, for a
nonempty name, `name.toLowerCase().trim() ↦ b.id`; later `set` calls
overwrite earlier ones. -/
def branchMapEntries (branches : List Branch) : List (String × String) :=
  branches.flatMap (fun b =>
    (b.id, b.id) ::
      (if b.name.isEmpty then [] else [(jsTrim (jsToLower b.name), b.id)]))

/-- `Map.get` under last-write-wins insertion order. -/
def mapGetLast (entries : List (String × String)) (k : String) : Option String :=
  (entries.reverse.find? (fun p => p.1 == k)).map (fun p => p.2)

/-- Branch token resolution (`api.ts` line 197):
`branchMap.get(branchInput) || branchMap.get(branchInput.toLowerCase())`. -/
def resolveBranchId (branches : List Branch) (input : String) : Option String :=
  match mapGetLast (branchMapEntries branches) input with
  | some v => some v
  | none => mapGetLast (branchMapEntries branches) (jsToLower input)

/-- One bucket of the `branchGroups` reduce (`api.ts` lines 192-209), keyed by
branch, date and time. -/
structure BatchGroup where
  branch_id : String
  shift_date : String
  shift_time : String
  rows : List CsvRow
deriving DecidableEq, Repr

/-- Does a bucket carry this group key? (the `groupKey` template string) -/
def sameGroup (g : BatchGroup) (b d t : String) : Bool :=
  g.branch_id == b && g.shift_date == d && g.shift_time == t

/-- The group key as a triple. -/
def groupKey (g : BatchGroup) : String × String × String :=
  (g.branch_id, g.shift_date, g.shift_time)

/-- Append a row to its bucket, creating the bucket on first sight. -/
def upsertGroup (acc : List BatchGroup) (b d t : String) (row : CsvRow) :
    List BatchGroup :=
  if acc.any (fun g => sameGroup g b d t) then
    acc.map (fun g => if sameGroup g b d t then { g with rows := g.rows ++ [row] }
      else g)
  else acc ++ [{ branch_id := b, shift_date := d, shift_time := t, rows := [row] }]

/-- Is the row's branch token nonblank and resolvable? (`api.ts` lines
194-198). -/
def rowResolvable (branches : List Branch) (row : CsvRow) : Bool :=
  !(jsTrim row.branch).isEmpty &&
    (resolveBranchId branches (jsTrim row.branch)).isSome

/-- One step of the grouping reduce (`api.ts` lines 193-209): rows with an
empty or unresolvable branch token are dropped silently; the rest are
bucketed under (resolved branch, date defaulting to today, time defaulting to
Morning). -/
def groupStep (branches : List Branch) (today : String) (acc : List BatchGroup)
    (row : CsvRow) : List BatchGroup :=
  let branchInput := jsTrim row.branch
  if branchInput.isEmpty then acc
  else
    match resolveBranchId branches branchInput with
    | none => acc
    | some validBranchId =>
      upsertGroup acc validBranchId (row.date.getD today) (row.time.getD "Morning") row

/-- `branchGroups` (`api.ts` lines 193-209). -/
def branchGroups (branches : List Branch) (today : String) (csvRows : List CsvRow) :
    List BatchGroup :=
  csvRows.foldl (groupStep branches today) []

/-- One `shift_data` insert payload (`api.ts` lines 284-293), with the
attendant carried by trimmed name (an id always resolves: unknown names
create a new attendant before the validity check). -/
structure InsertPayload where
  branch_id : String
  shift_date : String
  shift_time : String
  attendant_name : String
  pump_product : String
  expected_amount : ℚ
  cash_remitted : ℚ
  pos_remitted : ℚ
  variance : ℚ
deriving DecidableEq, Repr

/-- Row validity inside a group (`api.ts` lines 254-255 and 282): the
attendant token must be nonblank and the parsed expected amount nonzero. -/
def validBatchRow (row : CsvRow) : Bool :=
  !(jsTrim row.attendant_name).isEmpty && !(rowExpected row == 0)

/-- The payloads a group contributes (`api.ts` lines 253-294). -/
def groupPayloads (g : BatchGroup) : List InsertPayload :=
  (g.rows.filter validBatchRow).map (fun row =>
    { branch_id := g.branch_id, shift_date := g.shift_date,
      shift_time := g.shift_time,
      attendant_name := jsTrim row.attendant_name,
      pump_product := row.pump_product.getD "General",
      expected_amount := rowExpected row, cash_remitted := rowCash row,
      pos_remitted := rowPos row,
      variance := (rowCash row + rowPos row) - rowExpected row })

/-- Every row the batch call inserts into `shift_data`. -/
def insertedPayloads (branches : List Branch) (today : String)
    (csvRows : List CsvRow) : List InsertPayload :=
  (branchGroups branches today csvRows).flatMap groupPayloads

/-- The value `uploadShiftDataBatch` returns on success
(`{ success: true, count: totalInserted }`). -/
structure BatchResult where
  success : Bool
  count : Nat
deriving DecidableEq, Repr

/-- The hard-failure message of `api.ts` line 304. -/
def noValidRowsMsg : String :=
  "No valid rows inserted. Ensure columns for \"Branch\", \"Attendant\", \"Expected\", and \"Cash\" exist."

/-- `uploadShiftDataBatch` (`api.ts` lines 181-308): group the rows, insert
the valid payloads of every group, and either throw the count-based
diagnostic when nothing was inserted or report the inserted count. -/
def uploadShiftDataBatch (branches : List Branch) (today : String)
    (csvRows : List CsvRow) : Except String BatchResult :=
  let totalInserted := (branchGroups branches today csvRows).foldl
    (fun n g => n + (groupPayloads g).length) 0
  if totalInserted == 0 then Except.error noValidRowsMsg
  else Except.ok { success := true, count := totalInserted }

theorem groupStep_skip (branches : List Branch) (today : String)
    (acc : List BatchGroup) (row : CsvRow)
    (h : rowResolvable branches row = false) :
    groupStep branches today acc row = acc := by
  unfold groupStep
  unfold rowResolvable at h
  by_cases he : (jsTrim row.branch).isEmpty = true
  · rw [if_pos he]
  · rw [if_neg he]
    have hsome : (resolveBranchId branches (jsTrim row.branch)).isSome = false := by
      rcases Bool.and_eq_false_iff.mp h with h' | h'
      · rw [Bool.not_eq_false'] at h'
        exact absurd h' he
      · exact h'
    cases hres : resolveBranchId branches (jsTrim row.branch) with
    | none => rfl
    | some v =>
      rw [hres] at hsome
      simp at hsome

theorem groupStep_hit (branches : List Branch) (today : String)
    (acc : List BatchGroup) (row : CsvRow) (v : String)
    (hne : (jsTrim row.branch).isEmpty = false)
    (hres : resolveBranchId branches (jsTrim row.branch) = some v) :
    groupStep branches today acc row =
      upsertGroup acc v (row.date.getD today) (row.time.getD "Morning") row := by
  unfold groupStep
  rw [if_neg (by simp [hne]), hres]

theorem foldl_groupStep_filter (branches : List Branch) (today : String)
    (rows : List CsvRow) : ∀ acc,
    rows.foldl (groupStep branches today) acc =
      (rows.filter (rowResolvable branches)).foldl (groupStep branches today) acc := by
  induction rows with
  | nil => intro acc; rfl
  | cons r rs ih =>
    intro acc
    rw [List.foldl_cons, List.filter_cons]
    by_cases h : rowResolvable branches r = true
    · rw [h, if_pos rfl, List.foldl_cons]
      exact ih _
    · rw [Bool.not_eq_true] at h
      rw [h]
      simp only [Bool.false_eq_true, if_false]
      rw [groupStep_skip branches today acc r h]
      exact ih acc

theorem sameGroup_iff (g : BatchGroup) (b d t : String) :
    sameGroup g b d t = true ↔ groupKey g = (b, d, t) := by
  unfold sameGroup groupKey
  simp only [Bool.and_eq_true, beq_iff_eq, Prod.mk.injEq]
  tauto

theorem upsertGroup_keys (acc : List BatchGroup) (b d t : String) (row : CsvRow) :
    (upsertGroup acc b d t row).map groupKey =
      (if acc.any (fun g => sameGroup g b d t) then acc.map groupKey
       else acc.map groupKey ++ [(b, d, t)]) := by
  unfold upsertGroup
  by_cases hany : acc.any (fun g => sameGroup g b d t) = true
  · rw [if_pos hany, if_pos hany, List.map_map]
    apply List.map_congr_left
    intro g _
    by_cases hc : sameGroup g b d t = true
    · simp only [Function.comp_apply, if_pos hc]
      rfl
    · simp only [Function.comp_apply, if_neg hc]
  · rw [if_neg hany, if_neg hany, List.map_append]
    rfl

theorem upsertGroup_keys_nodup (acc : List BatchGroup) (b d t : String)
    (row : CsvRow) (h : (acc.map groupKey).Nodup) :
    ((upsertGroup acc b d t row).map groupKey).Nodup := by
  rw [upsertGroup_keys]
  by_cases hany : acc.any (fun g => sameGroup g b d t) = true
  · rw [if_pos hany]
    exact h
  · rw [if_neg hany]
    rw [List.nodup_append]
    refine ⟨h, List.nodup_singleton _, ?_⟩
    intro k hk hk₂
    rw [List.mem_singleton] at hk₂
    obtain ⟨g, hg, hkey⟩ := List.mem_map.mp hk
    exact hany (List.any_eq_true.mpr ⟨g, hg,
      (sameGroup_iff g b d t).mpr (by rw [hkey, hk₂])⟩)

theorem upsert_hit_flatten (acc : List BatchGroup) (b d t : String) (row : CsvRow)
    (hnodup : (acc.map groupKey).Nodup)
    (hany : acc.any (fun g => sameGroup g b d t) = true) :
    ((acc.map (fun g => if sameGroup g b d t then { g with rows := g.rows ++ [row] }
        else g)).map (fun g => g.rows)).flatten.Perm
      ((acc.map (fun g => g.rows)).flatten ++ [row]) := by
  induction acc with
  | nil => simp at hany
  | cons g gs ih =>
    rw [List.map_cons] at hnodup
    rcases List.nodup_cons.mp hnodup with ⟨hnotmem, hgs⟩
    by_cases hg : sameGroup g b d t = true
    · have hid : gs.map (fun x => if sameGroup x b d t then
          { x with rows := x.rows ++ [row] } else x) = gs := by
        have hpt : ∀ x ∈ gs, (if sameGroup x b d t then
            { x with rows := x.rows ++ [row] } else x) = x := by
          intro x hx
          rw [if_neg ?hc]
          case hc =>
            intro hc
            apply hnotmem
            rw [(sameGroup_iff g b d t).mp hg, ← (sameGroup_iff x b d t).mp hc]
            exact List.mem_map.mpr ⟨x, hx, rfl⟩
        rw [List.map_congr_left hpt]
        simp
      rw [List.map_cons, if_pos hg, hid, List.map_cons, List.flatten_cons,
        List.map_cons, List.flatten_cons]
      simp only [List.append_assoc]
      exact List.Perm.append_left g.rows List.perm_append_comm
    · have hany' : gs.any (fun x => sameGroup x b d t) = true := by
        rw [List.any_cons, Bool.or_eq_true] at hany
        rcases hany with h | h
        · exact absurd h hg
        · exact h
      rw [List.map_cons, if_neg hg, List.map_cons, List.flatten_cons,
        List.map_cons, List.flatten_cons]
      simp only [List.append_assoc]
      exact List.Perm.append_left g.rows (ih hgs hany')

theorem upsertGroup_flatten (acc : List BatchGroup) (b d t : String) (row : CsvRow)
    (hnodup : (acc.map groupKey).Nodup) :
    ((upsertGroup acc b d t row).map (fun g => g.rows)).flatten.Perm
      ((acc.map (fun g => g.rows)).flatten ++ [row]) := by
  unfold upsertGroup
  by_cases hany : acc.any (fun g => sameGroup g b d t) = true
  · rw [if_pos hany]
    exact upsert_hit_flatten acc b d t row hnodup hany
  · rw [if_neg hany, List.map_append, List.flatten_append]
    simp

theorem groupStep_keys_nodup (branches : List Branch) (today : String)
    (acc : List BatchGroup) (row : CsvRow)
    (h : (acc.map groupKey).Nodup) :
    ((groupStep branches today acc row).map groupKey).Nodup := by
  by_cases hres : rowResolvable branches row = true
  · rw [rowResolvable, Bool.and_eq_true] at hres
    have hne : (jsTrim row.branch).isEmpty = false := by
      have h₁ := hres.1
      simpa using h₁
    cases hv : resolveBranchId branches (jsTrim row.branch) with
    | none =>
      have h₂ := hres.2
      rw [hv] at h₂
      simp at h₂
    | some v =>
      rw [groupStep_hit branches today acc row v hne hv]
      exact upsertGroup_keys_nodup acc v _ _ row h
  · rw [Bool.not_eq_true] at hres
    rw [groupStep_skip branches today acc row hres]
    exact h

theorem branchGroups_flatten_aux (branches : List Branch) (today : String)
    (rows : List CsvRow) : ∀ acc, (acc.map groupKey).Nodup →
    ((rows.foldl (groupStep branches today) acc).map (fun g => g.rows)).flatten.Perm
      ((acc.map (fun g => g.rows)).flatten ++ rows.filter (rowResolvable branches)) := by
  induction rows with
  | nil =>
    intro acc _
    simp
  | cons r rs ih =>
    intro acc hnodup
    rw [List.foldl_cons, List.filter_cons]
    by_cases hres : rowResolvable branches r = true
    · have hres₂ := hres
      rw [rowResolvable, Bool.and_eq_true] at hres₂
      have hne : (jsTrim r.branch).isEmpty = false := by
        have h₁ := hres₂.1
        simpa using h₁
      cases hv : resolveBranchId branches (jsTrim r.branch) with
      | none =>
        have h₂ := hres₂.2
        rw [hv] at h₂
        simp at h₂
      | some v =>
        rw [hres, if_pos rfl, groupStep_hit branches today acc r v hne hv]
        have hnodup' := upsertGroup_keys_nodup acc v (r.date.getD today)
          (r.time.getD "Morning") r hnodup
        have ihh := ih (upsertGroup acc v (r.date.getD today) (r.time.getD "Morning") r)
          hnodup'
        have hup := upsertGroup_flatten acc v (r.date.getD today)
          (r.time.getD "Morning") r hnodup
        have hcomb := ihh.trans (List.Perm.append_right _ hup)
        refine hcomb.trans ?_
        rw [List.append_assoc, List.singleton_append]
    · rw [Bool.not_eq_true] at hres
      rw [hres]
      simp only [Bool.false_eq_true, if_false]
      rw [groupStep_skip branches today acc r hres]
      exact ih acc hnodup

theorem branchGroups_flatten (branches : List Branch) (today : String)
    (rows : List CsvRow) :
    ((branchGroups branches today rows).map (fun g => g.rows)).flatten.Perm
      (rows.filter (rowResolvable branches)) := by
  have h := branchGroups_flatten_aux branches today rows [] (by simp)
  simpa using h

theorem countP_flatten {α : Type _} (p : α → Bool) (ls : List (List α)) :
    ls.flatten.countP p = (ls.map (fun l => l.countP p)).sum := by
  induction ls with
  | nil => rfl
  | cons l ls ih =>
    rw [List.flatten_cons, List.countP_append, List.map_cons, List.sum_cons, ih]

theorem uploadBatch_count (branches : List Branch) (today : String)
    (rows : List CsvRow) :
    (branchGroups branches today rows).foldl
      (fun n g => n + (groupPayloads g).length) 0 =
      rows.countP (fun r => rowResolvable branches r && validBatchRow r) := by
  rw [foldl_add_map (fun g => (groupPayloads g).length) _ 0, zero_add]
  have hlen : ∀ g ∈ branchGroups branches today rows,
      (groupPayloads g).length = g.rows.countP validBatchRow := by
    intro g _
    unfold groupPayloads
    rw [List.length_map, List.countP_eq_length_filter]
  rw [List.map_congr_left hlen]
  have hmm : (branchGroups branches today rows).map (fun g => g.rows.countP validBatchRow) =
      ((branchGroups branches today rows).map (fun g => g.rows)).map
        (fun l => l.countP validBatchRow) := by
    rw [List.map_map]
    rfl
  rw [hmm, ← countP_flatten]
  have hperm := branchGroups_flatten branches today rows
  rw [hperm.countP_eq, List.countP_filter]
  exact List.countP_congr (fun r _ => by rw [Bool.and_comm])

theorem uploadBatch_eq (branches : List Branch) (today : String)
    (rows : List CsvRow) :
    uploadShiftDataBatch branches today rows =
      (if rows.countP (fun r => rowResolvable branches r && validBatchRow r) = 0
       then Except.error noValidRowsMsg
       else Except.ok
         ⟨true, rows.countP (fun r => rowResolvable branches r && validBatchRow r)⟩) := by
  unfold uploadShiftDataBatch
  rw [uploadBatch_count]
  by_cases h : rows.countP (fun r => rowResolvable branches r && validBatchRow r) = 0
  · rw [if_pos (by simpa using h), if_pos h]
  · rw [if_neg (by simpa using h), if_neg h]

theorem countP_filter_absorb (branches : List Branch) (rows : List CsvRow) :
    (rows.filter (rowResolvable branches)).countP
      (fun r => rowResolvable branches r && validBatchRow r) =
      rows.countP (fun r => rowResolvable branches r && validBatchRow r) := by
  rw [List.countP_filter]
  apply List.countP_congr
  intro r _
  rw [show ((rowResolvable branches r && validBatchRow r) && rowResolvable branches r) =
    (rowResolvable branches r && validBatchRow r) from by
      cases h : rowResolvable branches r <;> simp [h]]

theorem branchGroups_rows_mem (branches : List Branch) (today : String)
    (rows : List CsvRow) :
    ∀ g ∈ branchGroups branches today rows, ∀ r ∈ g.rows, r ∈ rows := by
  intro g hg r hr
  have hflat : r ∈ ((branchGroups branches today rows).map (fun x => x.rows)).flatten :=
    List.mem_flatten.mpr ⟨g.rows, List.mem_map.mpr ⟨g, hg, rfl⟩, hr⟩
  have hfil := (branchGroups_flatten branches today rows).mem_iff.mp hflat
  exact List.mem_of_mem_filter hfil

/-- C7 (amended): rows whose branch token does not resolve are skipped
silently — the call behaves exactly as on the resolvable sublist and throws
nothing for them; the result reports the number of rows inserted (`count`)
but carries no skipped figure; and when zero rows are inserted the call
throws the descriptive "No valid rows inserted" error, and only then. -/
theorem C7_unknown_branch_rows_skipped (branches : List Branch) (today : String)
    (rows : List CsvRow) :
    uploadShiftDataBatch branches today rows =
      uploadShiftDataBatch branches today (rows.filter (rowResolvable branches)) ∧
    insertedPayloads branches today rows =
      insertedPayloads branches today (rows.filter (rowResolvable branches)) ∧
    (uploadShiftDataBatch branches today rows = Except.error noValidRowsMsg ↔
      rows.countP (fun r => rowResolvable branches r && validBatchRow r) = 0) ∧
    (∀ n, 0 < n →
      rows.countP (fun r => rowResolvable branches r && validBatchRow r) = n →
      uploadShiftDataBatch branches today rows = Except.ok ⟨true, n⟩) := by
  have hg : branchGroups branches today rows =
      branchGroups branches today (rows.filter (rowResolvable branches)) :=
    foldl_groupStep_filter branches today rows []
  refine ⟨?_, ?_, ?_, ?_⟩
  · rw [uploadBatch_eq, uploadBatch_eq, countP_filter_absorb]
  · unfold insertedPayloads
    rw [hg]
  · rw [uploadBatch_eq]
    by_cases h0 : rows.countP (fun r => rowResolvable branches r && validBatchRow r) = 0
    · rw [if_pos h0]
      simp [h0]
    · rw [if_neg h0]
      constructor
      · intro hok
        exact absurd hok (by simp)
      · intro hc
        exact absurd hc h0
  · intro n hn hcnt
    rw [uploadBatch_eq, hcnt, if_neg (by omega)]

/-- The single known branch of the concrete import examples. -/
def demoBranches : List Branch := [{ id := "b1", name := "Main" }]

/-- A row whose branch token resolves and whose figures are valid. -/
def validRow (name : String) : CsvRow :=
  { branch := "b1", attendant_name := name, date := none, time := none,
    pump_product := none, expected := some 100, cash := some 80, pos := some 20 }

/-- A row referencing an unknown branch token. -/
def unknownRow (name : String) : CsvRow :=
  { branch := "nope", attendant_name := name, date := none, time := none,
    pump_product := none, expected := some 100, cash := some 80, pos := some 20 }

/-- Scenario C batch: 3 valid rows plus 2 rows with an unknown branch. -/
def batchWithUnknown : List CsvRow :=
  [validRow "Ada", validRow "Bea", validRow "Cid", unknownRow "Dan", unknownRow "Eve"]

/-- The same batch without the unknown-branch rows. -/
def batchValidOnly : List CsvRow :=
  [validRow "Ada", validRow "Bea", validRow "Cid"]

/-- C7 counterexample: the batch with 3 valid and 2 unknown-branch rows
returns `{ success := true, count := 3 }` with no error — but the result is
identical to the one for the batch with no skipped rows at all, so the result
does not report the number skipped (there is no `skipped` field to report). -/
theorem C7_skipped_not_reported_counterexample :
    uploadShiftDataBatch demoBranches "2025-01-01" batchWithUnknown =
      Except.ok ⟨true, 3⟩ ∧
    uploadShiftDataBatch demoBranches "2025-01-01" batchValidOnly =
      Except.ok ⟨true, 3⟩ ∧
    uploadShiftDataBatch demoBranches "2025-01-01" batchWithUnknown =
      uploadShiftDataBatch demoBranches "2025-01-01" batchValidOnly ∧
    batchWithUnknown.countP (fun r => !(rowResolvable demoBranches r)) = 2 ∧
    batchValidOnly.countP (fun r => !(rowResolvable demoBranches r)) = 0 := by
  have h₁ : uploadShiftDataBatch demoBranches "2025-01-01" batchWithUnknown =
      Except.ok ⟨true, 3⟩ := by rfl
  have h₂ : uploadShiftDataBatch demoBranches "2025-01-01" batchValidOnly =
      Except.ok ⟨true, 3⟩ := by rfl
  exact ⟨h₁, h₂, h₁.trans h₂.symm, by decide, by decide⟩

/-- Witness for C7's amended theorem at the scenario-C batch: count 3, no
error, and the batch behaves as its resolvable sublist. -/
theorem C7_unknown_branch_rows_skipped_witness :
    (0 < 3 ∧ batchWithUnknown.countP
      (fun r => rowResolvable demoBranches r && validBatchRow r) = 3) ∧
    uploadShiftDataBatch demoBranches "2025-01-01" batchWithUnknown =
      Except.ok ⟨true, 3⟩ ∧
    uploadShiftDataBatch demoBranches "2025-01-01" batchWithUnknown =
      uploadShiftDataBatch demoBranches "2025-01-01"
        (batchWithUnknown.filter (rowResolvable demoBranches)) := by
  have h := C7_unknown_branch_rows_skipped demoBranches "2025-01-01" batchWithUnknown
  exact ⟨⟨by omega, by decide⟩, h.2.2.2 3 (by omega) (by decide), h.1⟩

/-- C10: a row whose attendant token is blank, or whose expected amount
parses to exactly 0 (also when the column is missing), is silently skipped
even when its branch resolves: every inserted payload has a nonblank
attendant name and a nonzero expected amount, and a batch consisting only of
such rows yields no payloads and throws the "No valid rows inserted" error. -/
theorem C10_blank_or_zero_rows_skipped (branches : List Branch) (today : String)
    (rows : List CsvRow) :
    (∀ p ∈ insertedPayloads branches today rows,
      p.attendant_name ≠ "" ∧ p.expected_amount ≠ 0) ∧
    ((∀ r ∈ rows, jsTrim r.attendant_name = "" ∨ rowExpected r = 0) →
      insertedPayloads branches today rows = [] ∧
      uploadShiftDataBatch branches today rows = Except.error noValidRowsMsg) := by
  have hpay : ∀ p ∈ insertedPayloads branches today rows,
      ∃ g ∈ branchGroups branches today rows, ∃ row ∈ g.rows,
        validBatchRow row = true ∧ p.attendant_name = jsTrim row.attendant_name ∧
        p.expected_amount = rowExpected row := by
    intro p hp
    obtain ⟨g, hgmem, hpg⟩ := List.mem_flatMap.mp hp
    obtain ⟨row, hrow, hpeq⟩ := List.mem_map.mp hpg
    rcases List.mem_filter.mp hrow with ⟨hrmem, hval⟩
    exact ⟨g, hgmem, row, hrmem, hval, by rw [← hpeq], by rw [← hpeq]⟩
  constructor
  · intro p hp
    obtain ⟨g, _, row, _, hval, hname, hexp⟩ := hpay p hp
    rw [validBatchRow, Bool.and_eq_true] at hval
    constructor
    · rw [hname]
      intro hblank
      have : (jsTrim row.attendant_name).isEmpty = true :=
        (String.isEmpty_iff (jsTrim row.attendant_name)).mpr hblank
      rw [this] at hval
      simpa using hval.1
    · rw [hexp]
      intro hzero
      have : (rowExpected row == 0) = true := by simpa using hzero
      rw [this] at hval
      simpa using hval.2
  · intro hall
    have hvalfalse : ∀ r ∈ rows, validBatchRow r = false := by
      intro r hr
      rcases hall r hr with hblank | hzero
      · unfold validBatchRow
        rw [(String.isEmpty_iff (jsTrim r.attendant_name)).mpr hblank]
        rfl
      · unfold validBatchRow
        rw [show (rowExpected r == 0) = true from by simpa using hzero]
        simp
    constructor
    · rw [List.eq_nil_iff_forall_not_mem]
      intro p hp
      obtain ⟨g, hgmem, row, hrow, hval, -, -⟩ := hpay p hp
      have hrm : row ∈ rows := branchGroups_rows_mem branches today rows g hgmem row hrow
      rw [hvalfalse row hrm] at hval
      simp at hval
    · rw [uploadBatch_eq, if_pos ?hzero]
      case hzero =>
        rw [List.countP_eq_zero]
        intro r hr
        rw [hvalfalse r hr]
        simp

/-- A batch whose rows all have a resolvable branch but a blank attendant
name, a zero expected amount, or a missing expected column. -/
def zeroExpectedBatch : List CsvRow :=
  [{ branch := "b1", attendant_name := "", date := none, time := none,
     pump_product := none, expected := some 100, cash := some 50, pos := none },
   { branch := "b1", attendant_name := "Ada", date := none, time := none,
     pump_product := none, expected := some 0, cash := some 50, pos := none },
   { branch := "b1", attendant_name := "Bea", date := none, time := none,
     pump_product := none, expected := none, cash := some 50, pos := none }]

/-- Witness for C10: the all-invalid batch with resolvable branch tokens
inserts nothing and throws the "No valid rows inserted" error. -/
theorem C10_blank_or_zero_rows_skipped_witness :
    (∀ r ∈ zeroExpectedBatch, jsTrim r.attendant_name = "" ∨ rowExpected r = 0) ∧
    insertedPayloads demoBranches "2025-01-01" zeroExpectedBatch = [] ∧
    uploadShiftDataBatch demoBranches "2025-01-01" zeroExpectedBatch =
      Except.error noValidRowsMsg ∧
    zeroExpectedBatch.countP (rowResolvable demoBranches) = 3 := by
  have hyp : ∀ r ∈ zeroExpectedBatch,
      jsTrim r.attendant_name = "" ∨ rowExpected r = 0 := by decide
  have h := (C10_blank_or_zero_rows_skipped demoBranches "2025-01-01"
    zeroExpectedBatch).2 hyp
  exact ⟨hyp, h.1, h.2, by decide⟩

end SHFari
